import Mathlib

/-!
Shallow embedding of the BudgetTracker backend's budget/transaction core
(`backend/services/budget_service.py` and `backend/services/transaction_service.py`),
together with proofs of the specified properties.

Modelling conventions:
* Monetary values (`Numeric(10,2)` / Python `Decimal`) are embedded as `Int`
  numbers of cents; all arithmetic in the services is exact addition,
  subtraction and comparison, which `Int` models exactly.
* Calendar dates are embedded as a year/month/day record with proleptic
  Gregorian day arithmetic, matching Python `datetime.date` + `timedelta`.
* The database is a record of lists of rows plus a fresh-id counter; SQLAlchemy
  `scalar_one_or_none` is embedded faithfully, including the
  `MultipleResultsFound` error it raises when a query returns several rows.
* A SQLAlchemy session is a pair of committed and current database states:
  `commit` copies current into committed, `rollback` copies committed into
  current.  Service functions return their result together with the state
  left behind (the state is unchanged on the error paths, which in the source
  raise before any mutation).
-/

/-- Enum `PayPeriodStatus` from `models/budget.py`. -/
inductive PayPeriodStatus where
  | active
  | completed
deriving DecidableEq

/-- Enum `PayFrequency` from `models/budget.py`. -/
inductive PayFrequency where
  | weekly
  | bi_weekly
  | monthly
deriving DecidableEq

/-- Enum `TransactionSource` from `models/transaction.py`. -/
inductive TransactionSource where
  | manual
  | api
deriving DecidableEq

/-- Proleptic Gregorian calendar date, as Python's `datetime.date`. -/
structure Date where
  year : Nat
  month : Nat
  day : Nat
deriving DecidableEq

/-- Gregorian leap-year rule. -/
def Date.isLeap (y : Nat) : Bool :=
  (y % 4 == 0 && y % 100 != 0) || (y % 400 == 0)

/-- Number of days of month `m` in year `y`. -/
def daysInMonth (y m : Nat) : Nat :=
  if m == 2 then (if Date.isLeap y then 29 else 28)
  else if m == 4 || m == 6 || m == 9 || m == 11 then 30
  else 31

/-- A date is valid when its month and day are in calendar range. -/
def Date.Valid (d : Date) : Prop :=
  1 ≤ d.month ∧ d.month ≤ 12 ∧ 1 ≤ d.day ∧ d.day ≤ daysInMonth d.year d.month

instance (d : Date) : Decidable d.Valid := by
  unfold Date.Valid; infer_instance

/-- Successor day (rolls over months and years). -/
def nextDay (d : Date) : Date :=
  if d.day < daysInMonth d.year d.month then
    { d with day := d.day + 1 }
  else if d.month < 12 then
    { year := d.year, month := d.month + 1, day := 1 }
  else
    { year := d.year + 1, month := 1, day := 1 }

/-- Predecessor day (rolls back months and years). -/
def prevDay (d : Date) : Date :=
  if 1 < d.day then
    { d with day := d.day - 1 }
  else if 1 < d.month then
    { year := d.year, month := d.month - 1, day := daysInMonth d.year (d.month - 1) }
  else
    { year := d.year - 1, month := 12, day := 31 }

/-- `d + timedelta(days := n)` for a non-negative number of days. -/
def addDays (d : Date) : Nat → Date
  | 0 => d
  | n + 1 => addDays (nextDay d) n

/-- Column comparison `<=` on dates (lexicographic on year, month, day). -/
def dateLe (a b : Date) : Bool :=
  a.year < b.year ||
    (a.year == b.year &&
      (a.month < b.month || (a.month == b.month && a.day ≤ b.day)))

/-- The authenticated user identity consumed by the services (only `id` is
used by the budget/transaction core). -/
structure User where
  id : Nat
deriving DecidableEq

/-- Row of table `pay_periods` (`models/budget.py`). -/
structure PayPeriod where
  id : Nat
  user_id : Nat
  start_date : Date
  end_date : Date
  frequency : PayFrequency
  total_income : Int
  status : PayPeriodStatus
deriving DecidableEq

/-- Row of table `budget_categories` (`models/budget.py`). -/
structure BudgetCategory where
  id : Nat
  pay_period_id : Nat
  name : String
  allocated_amount : Int
  remaining_amount : Int
deriving DecidableEq

/-- Row of table `transactions` (`models/transaction.py`).  The transaction
date is an abstract timestamp. -/
structure Transaction where
  id : Nat
  pay_period_id : Nat
  budget_category_id : Nat
  amount : Int
  description : String
  transaction_date : Nat
  source : TransactionSource
deriving DecidableEq

/-- Schema `BudgetCategoryCreate` (`schemas/budget.py`). -/
structure BudgetCategoryCreate where
  name : String
  allocated_amount : Int
deriving DecidableEq

/-- Schema `PayPeriodCreate` (`schemas/budget.py`). -/
structure PayPeriodCreate where
  start_date : Date
  frequency : PayFrequency
  total_income : Int
  budget_categories : List BudgetCategoryCreate
deriving DecidableEq

/-- Schema `PayPeriodUpdate` (`schemas/budget.py`). -/
structure PayPeriodUpdate where
  status : Option PayPeriodStatus
  total_income : Option Int
deriving DecidableEq

/-- Schema `BudgetAllocationRequest` (`schemas/budget.py`). -/
structure BudgetAllocationRequest where
  pay_period_id : Nat
  allocations : List BudgetCategoryCreate
deriving DecidableEq

/-- Schema `TransactionCreate` (`schemas/transaction.py`). -/
structure TransactionCreate where
  budget_category_id : Nat
  amount : Int
  description : String
  transaction_date : Option Nat
  source : TransactionSource
deriving DecidableEq

/-- Schema `TransactionUpdate` (`schemas/transaction.py`). -/
structure TransactionUpdate where
  description : Option String
  amount : Option Int
deriving DecidableEq

/-- Abstract error outcomes raised by the services: the `HTTPException`s of
the source, plus the `MultipleResultsFound` error that
`scalar_one_or_none` raises on a multi-row result, plus the wrapper that
`bulk_create_transactions` puts around the first failing item's error. -/
inductive Err where
  | notFound
  | conflict
  | overAllocation (total income : Int)
  | insufficientFunds (available requested : Int)
  | insufficientFundsIncrease (available : Int)
  | multipleResults
  | bulkFailed (first : Err)
deriving DecidableEq

/-- Contents of the persistent store: the three mutable tables, plus a
fresh-id counter standing for the autoincrement primary keys. -/
structure DB where
  periods : List PayPeriod
  categories : List BudgetCategory
  transactions : List Transaction
  nextId : Nat
deriving DecidableEq

/-- The empty database (no rows yet, first fresh id is 1). -/
def emptyDB : DB := { periods := [], categories := [], transactions := [], nextId := 1 }

/-- SQLAlchemy session state: `committed` is what the store durably holds,
`current` additionally has the uncommitted writes of the session. -/
structure Session where
  committed : DB
  current : DB
deriving DecidableEq

/-- `Result.scalar_one_or_none()` over the rows a query returned: `none` for
no row, the row when unique, and the `MultipleResultsFound` error otherwise. -/
def scalarOneOrNone {α : Type} : List α → Except Err (Option α)
  | [] => .ok none
  | [a] => .ok (some a)
  | _ :: _ :: _ => .error .multipleResults

/-- Whether an `Except` result is a success. -/
def exceptIsOk {ε α : Type} : Except ε α → Bool
  | .ok _ => true
  | .error _ => false

instance {ε α : Type} [DecidableEq ε] [DecidableEq α] : DecidableEq (Except ε α)
  | .ok a, .ok b =>
    if h : a = b then isTrue (by rw [h]) else isFalse (by intro hc; cases hc; exact h rfl)
  | .ok _, .error _ => isFalse (by intro hc; cases hc)
  | .error _, .ok _ => isFalse (by intro hc; cases hc)
  | .error e, .error f =>
    if h : e = f then isTrue (by rw [h]) else isFalse (by intro hc; cases hc; exact h rfl)

namespace BudgetService

/-- `BudgetService.calculate_end_date`: weekly adds 6 days, bi-weekly adds 13
days, monthly takes the first day of the following month minus one day. -/
def calculate_end_date (start_date : Date) (frequency : PayFrequency) : Date :=
  match frequency with
  | .weekly => addDays start_date 6
  | .bi_weekly => addDays start_date 13
  | .monthly =>
    let next_month : Date :=
      if start_date.month == 12 then
        { year := start_date.year + 1, month := 1, day := 1 }
      else
        { year := start_date.year, month := start_date.month + 1, day := 1 }
    prevDay next_month

/-- The overlap query of `BudgetService.create_pay_period`: existing periods
of the same user with status active whose `[start_date, end_date]` range
intersects the new inclusive range. -/
def overlapping_periods (user : User) (new_start new_end : Date) (db : DB) :
    List PayPeriod :=
  db.periods.filter (fun p =>
    p.user_id == user.id && p.status == PayPeriodStatus.active &&
    dateLe p.start_date new_end && dateLe new_start p.end_date)

/-- `BudgetService._create_budget_category`: inserts a category whose
remaining amount is initialised to its allocated amount, and commits. -/
def _create_budget_category (pay_period_id : Nat) (category_data : BudgetCategoryCreate)
    (db : DB) : BudgetCategory × DB :=
  let db_category : BudgetCategory :=
    { id := db.nextId
      pay_period_id := pay_period_id
      name := category_data.name
      allocated_amount := category_data.allocated_amount
      remaining_amount := category_data.allocated_amount }
  (db_category,
   { db with categories := db_category :: db.categories, nextId := db.nextId + 1 })

/-- Sequential creation of a list of categories via
`_create_budget_category`, as the loops in `create_pay_period` and
`allocate_budget` do. -/
def create_categories (pay_period_id : Nat) (category_list : List BudgetCategoryCreate)
    (db : DB) : List BudgetCategory × DB :=
  match category_list with
  | [] => ([], db)
  | cd :: rest =>
    let step := _create_budget_category pay_period_id cd db
    let tail := create_categories pay_period_id rest step.2
    (step.1 :: tail.1, tail.2)

/-- `BudgetService.create_pay_period`: computes the end date, rejects when the
single-row overlap query finds an active period of the same user intersecting
the new range (raising `MultipleResultsFound` when the query returns several
rows), otherwise persists the period with status active and then creates the
initial categories, if provided. -/
def create_pay_period (user : User) (pay_period_data : PayPeriodCreate) (db : DB) :
    Except Err PayPeriod × DB :=
  let end_date := calculate_end_date pay_period_data.start_date pay_period_data.frequency
  match scalarOneOrNone (overlapping_periods user pay_period_data.start_date end_date db) with
  | .error e => (.error e, db)
  | .ok (some _) => (.error .conflict, db)
  | .ok none =>
    let db_pay_period : PayPeriod :=
      { id := db.nextId
        user_id := user.id
        start_date := pay_period_data.start_date
        end_date := end_date
        frequency := pay_period_data.frequency
        total_income := pay_period_data.total_income
        status := .active }
    let db1 : DB :=
      { db with periods := db_pay_period :: db.periods, nextId := db.nextId + 1 }
    let db2 := (create_categories db_pay_period.id pay_period_data.budget_categories db1).2
    (.ok db_pay_period, db2)

/-- `BudgetService.get_pay_period_by_id`: single-row query for the period with
this id owned by the requesting user. -/
def get_pay_period_by_id (user : User) (pay_period_id : Nat) (db : DB) :
    Except Err (Option PayPeriod) :=
  scalarOneOrNone (db.periods.filter (fun p =>
    p.id == pay_period_id && p.user_id == user.id))

/-- `BudgetService.update_pay_period`: fetches the period scoped to the user
(`none` when absent or not owned), then overwrites status and total income
where the patch supplies them, and commits. -/
def update_pay_period (user : User) (pay_period_id : Nat)
    (update_data : PayPeriodUpdate) (db : DB) :
    Except Err (Option PayPeriod) × DB :=
  match get_pay_period_by_id user pay_period_id db with
  | .error e => (.error e, db)
  | .ok none => (.ok none, db)
  | .ok (some pay_period) =>
    let updated : PayPeriod :=
      { pay_period with
          status := update_data.status.getD pay_period.status,
          total_income := update_data.total_income.getD pay_period.total_income }
    (.ok (some updated),
     { db with periods := db.periods.map (fun p =>
         if p.id == pay_period_id then updated else p) })

/-- `BudgetService.allocate_budget`: resolves the period scoped to the user,
rejects when the supplied batch's total allocation exceeds the period's total
income (the comparison looks only at the supplied batch), then creates the
categories one at a time.  The statement below the check that the source
comments as clearing existing categories only executes a `select`, so no
deletion happens and it is not modelled. -/
def allocate_budget (user : User) (allocation_request : BudgetAllocationRequest)
    (db : DB) : Except Err (List BudgetCategory) × DB :=
  match get_pay_period_by_id user allocation_request.pay_period_id db with
  | .error e => (.error e, db)
  | .ok none => (.error .notFound, db)
  | .ok (some pay_period) =>
    let total_allocation :=
      (allocation_request.allocations.map (fun a => a.allocated_amount)).sum
    if pay_period.total_income < total_allocation then
      (.error (.overAllocation total_allocation pay_period.total_income), db)
    else
      let created := create_categories pay_period.id allocation_request.allocations db
      (.ok created.1, created.2)

end BudgetService

namespace TransactionService

/-- The ownership join of `TransactionService.create_transaction`: the
category with the requested id whose pay period belongs to the user. -/
def owned_categories (user : User) (budget_category_id : Nat) (db : DB) :
    List BudgetCategory :=
  db.categories.filter (fun c =>
    c.id == budget_category_id &&
    db.periods.any (fun p => p.id == c.pay_period_id && p.user_id == user.id))

/-- `TransactionService.create_transaction`: resolves the category scoped to
the user, raises insufficient-funds when the category's current remaining
amount is below the requested amount, otherwise inserts the transaction
(dated `now` when the data carries no date), decrements the category's
remaining amount and commits. -/
def create_transaction (user : User) (transaction_data : TransactionCreate)
    (now : Nat) (db : DB) : Except Err Transaction × DB :=
  match scalarOneOrNone (owned_categories user transaction_data.budget_category_id db) with
  | .error e => (.error e, db)
  | .ok none => (.error .notFound, db)
  | .ok (some budget_category) =>
    if budget_category.remaining_amount < transaction_data.amount then
      (.error (.insufficientFunds budget_category.remaining_amount transaction_data.amount), db)
    else
      let db_transaction : Transaction :=
        { id := db.nextId
          pay_period_id := budget_category.pay_period_id
          budget_category_id := budget_category.id
          amount := transaction_data.amount
          description := transaction_data.description
          transaction_date := transaction_data.transaction_date.getD now
          source := transaction_data.source }
      (.ok db_transaction,
       { db with
           categories := db.categories.map (fun c =>
             if c.id == budget_category.id then
               { c with remaining_amount := c.remaining_amount - transaction_data.amount }
             else c)
           transactions := db_transaction :: db.transactions
           nextId := db.nextId + 1 })

/-- Loop body of `TransactionService.bulk_create_transactions`: each spec is
forced to source `api` and run through `create_transaction`, whose commit
makes the insert durable; on the first failure the session is rolled back to
its committed state and the failure is re-raised wrapped in a bulk error. -/
def bulk_create_go (user : User) (specs : List TransactionCreate) (now : Nat)
    (acc : List Transaction) (sess : Session) :
    Except Err (List Transaction) × Session :=
  match specs with
  | [] => (.ok acc.reverse, sess)
  | transaction_data :: rest =>
    let tagged := { transaction_data with source := TransactionSource.api }
    match create_transaction user tagged now sess.current with
    | (.ok t, db1) =>
      bulk_create_go user rest now (t :: acc) { committed := db1, current := db1 }
    | (.error e, _) =>
      (.error (.bulkFailed e), { committed := sess.committed, current := sess.committed })

/-- `TransactionService.bulk_create_transactions`, started on a session whose
current state equals the committed store; the returned database is what the
store durably holds afterwards. -/
def bulk_create_transactions (user : User) (specs : List TransactionCreate)
    (now : Nat) (db : DB) : Except Err (List Transaction) × DB :=
  let run := bulk_create_go user specs now [] { committed := db, current := db }
  (run.1, run.2.committed)

/-- `TransactionService.get_transaction_by_id`: single-row query for the
transaction with this id whose pay period belongs to the user. -/
def get_transaction_by_id (user : User) (transaction_id : Nat) (db : DB) :
    Except Err (Option Transaction) :=
  scalarOneOrNone (db.transactions.filter (fun t =>
    t.id == transaction_id &&
    db.periods.any (fun p => p.id == t.pay_period_id && p.user_id == user.id)))

/-- `TransactionService.update_transaction`: fetches the transaction scoped to
the user (`none` when absent or not owned).  When the patch carries an
amount, the owning category is fetched by id; if the amount difference is a
strict increase above the category's remaining amount the update is rejected,
otherwise the remaining amount is decremented by the difference and the
transaction's amount replaced.  A patched description is then written, and
the whole update commits at once. -/
def update_transaction (user : User) (transaction_id : Nat)
    (update_data : TransactionUpdate) (db : DB) :
    Except Err (Option Transaction) × DB :=
  match get_transaction_by_id user transaction_id db with
  | .error e => (.error e, db)
  | .ok none => (.ok none, db)
  | .ok (some transaction) =>
    let amount_step : Except Err (Transaction × DB) :=
      match update_data.amount with
      | none => .ok (transaction, db)
      | some new_amount =>
        match scalarOneOrNone (db.categories.filter (fun c =>
            c.id == transaction.budget_category_id)) with
        | .error e => .error e
        | .ok none => .ok (transaction, db)
        | .ok (some budget_category) =>
          let amount_diff := new_amount - transaction.amount
          if 0 < amount_diff ∧ budget_category.remaining_amount < amount_diff then
            .error (.insufficientFundsIncrease budget_category.remaining_amount)
          else
            .ok ({ transaction with amount := new_amount },
                 { db with categories := db.categories.map (fun c =>
                     if c.id == budget_category.id then
                       { c with remaining_amount := c.remaining_amount - amount_diff }
                     else c) })
    match amount_step with
    | .error e => (.error e, db)
    | .ok (transaction1, db1) =>
      let transaction2 :=
        match update_data.description with
        | some new_description => { transaction1 with description := new_description }
        | none => transaction1
      (.ok (some transaction2),
       { db1 with transactions := db1.transactions.map (fun t =>
           if t.id == transaction_id then transaction2 else t) })

/-- `TransactionService.delete_transaction`: fetches the transaction scoped to
the user (`false` when absent or not owned), restores the owning category's
remaining amount, removes the transaction and commits. -/
def delete_transaction (user : User) (transaction_id : Nat) (db : DB) :
    Except Err Bool × DB :=
  match get_transaction_by_id user transaction_id db with
  | .error e => (.error e, db)
  | .ok none => (.ok false, db)
  | .ok (some transaction) =>
    match scalarOneOrNone (db.categories.filter (fun c =>
        c.id == transaction.budget_category_id)) with
    | .error e => (.error e, db)
    | .ok found_category =>
      let db1 : DB :=
        match found_category with
        | some budget_category =>
          { db with categories := db.categories.map (fun c =>
              if c.id == budget_category.id then
                { c with remaining_amount := c.remaining_amount + transaction.amount }
              else c) }
        | none => db
      (.ok true,
       { db1 with transactions := db1.transactions.filter (fun t =>
           !(t.id == transaction_id)) })

/-- Analytics output of `TransactionService.get_spending_analytics`; the
average is an exact rational.  The top-category ranking the source also
returns has no bearing on the claimed properties and is not modelled. -/
structure SpendingAnalyticsResult where
  total_periods : Nat
  total_income : Int
  total_spent : Int
  average_spending_per_period : Rat
deriving DecidableEq

/-- `TransactionService.get_spending_analytics`: counts the user's periods and
sums their income, sums the amounts of the transactions joined to the user's
periods, and divides total spent by the period count unless it is zero. -/
def get_spending_analytics (user : User) (db : DB) : SpendingAnalyticsResult :=
  let user_periods := db.periods.filter (fun p => p.user_id == user.id)
  let period_count := user_periods.length
  let total_income := (user_periods.map (fun p => p.total_income)).sum
  let user_transactions := db.transactions.filter (fun t =>
    db.periods.any (fun p => p.id == t.pay_period_id && p.user_id == user.id))
  let total_spent := (user_transactions.map (fun t => t.amount)).sum
  { total_periods := period_count
    total_income := total_income
    total_spent := total_spent
    average_spending_per_period :=
      if 0 < period_count then (total_spent : Rat) / (period_count : Rat) else 0 }

end TransactionService

/-! ## Properties of the period end-date computation -/

/-- C5: for every valid start date and every frequency,
`BudgetService.calculate_end_date` derives the end date deterministically:
weekly gives the start date plus 6 days, bi-weekly the start date plus
13 days, and monthly the last calendar day of the month containing the
start date. -/
theorem calculate_end_date_correct (d : Date) (f : PayFrequency) (hv : d.Valid) :
    (f = .weekly → BudgetService.calculate_end_date d f = addDays d 6) ∧
    (f = .bi_weekly → BudgetService.calculate_end_date d f = addDays d 13) ∧
    (f = .monthly →
      BudgetService.calculate_end_date d f =
        { year := d.year, month := d.month, day := daysInMonth d.year d.month }) := by
  refine ⟨fun h => by subst h; rfl, fun h => by subst h; rfl, fun h => ?_⟩
  subst h
  show prevDay (if d.month == 12 then { year := d.year + 1, month := 1, day := 1 }
    else { year := d.year, month := d.month + 1, day := 1 }) = _
  by_cases h12 : d.month = 12
  · simp only [h12, prevDay, daysInMonth]
    norm_num
  · have h1 : 1 ≤ d.month := hv.1
    have hne : (d.month == 12) = false := by simp [h12]
    simp only [hne, prevDay, Bool.false_eq_true, if_false]
    norm_num
    omega

/-- Witness for C5 at a concrete leap-February date. -/
theorem calculate_end_date_correct_witness :
    BudgetService.calculate_end_date ⟨2024, 2, 10⟩ .monthly = ⟨2024, 2, 29⟩ :=
  (calculate_end_date_correct ⟨2024, 2, 10⟩ .monthly (by decide)).2.2 rfl

/-! ## Concrete fixtures used by counterexamples and witnesses -/

/-- An active bi-weekly period of user 1, 2024-01-01 to 2024-01-14, income
2000.00. -/
def samplePeriod : PayPeriod :=
  { id := 1, user_id := 1, start_date := ⟨2024, 1, 1⟩, end_date := ⟨2024, 1, 14⟩,
    frequency := .bi_weekly, total_income := 200000, status := .active }

/-- A category of the sample period with 100.00 allocated and remaining. -/
def sampleCategory : BudgetCategory :=
  { id := 2, pay_period_id := 1, name := "Groceries", allocated_amount := 10000,
    remaining_amount := 10000 }

/-- Store holding the sample period and category. -/
def sampleDB : DB :=
  { periods := [samplePeriod], categories := [sampleCategory], transactions := [], nextId := 3 }

/-- A 60.00 transaction request against the sample category. -/
def spec60 : TransactionCreate :=
  { budget_category_id := 2, amount := 6000, description := "x",
    transaction_date := none, source := .manual }

/-! ## Bulk creation is not all-or-nothing -/

/-- C2: against a category with 100.00 remaining, a bulk batch of two 60.00
transactions fails on its second item (insufficient funds, 40.00 available)
and the failure wraps the first failing item's error — but the first
transaction of the batch stays durably persisted and the category's balance
stays decremented to 40.00: `create_transaction` commits inside the loop, so
the rollback issued on the failure cannot undo prior items and the batch is
not all-or-nothing. -/
theorem bulk_create_partial_persistence :
    (TransactionService.bulk_create_transactions ⟨1⟩ [spec60, spec60] 0 sampleDB).1 =
      .error (.bulkFailed (.insufficientFunds 4000 6000)) ∧
    ((TransactionService.bulk_create_transactions ⟨1⟩ [spec60, spec60] 0 sampleDB).2.transactions.map
      (fun t => t.amount)) = [6000] ∧
    ((TransactionService.bulk_create_transactions ⟨1⟩ [spec60, spec60] 0 sampleDB).2.categories.map
      (fun c => c.remaining_amount)) = [4000] := by
  decide

/-! ## Overlap rejection at period creation -/

/-- The database's periods are untouched by category creation. -/
theorem create_categories_periods (pid : Nat) (cds : List BudgetCategoryCreate) (db : DB) :
    (BudgetService.create_categories pid cds db).2.periods = db.periods := by
  induction cds generalizing db with
  | nil => rfl
  | cons cd rest ih => simp [BudgetService.create_categories, ih, BudgetService._create_budget_category]

/-- Two disjoint active periods of user 1 inside January 2024. -/
def periodA : PayPeriod :=
  { id := 1, user_id := 1, start_date := ⟨2024, 1, 1⟩, end_date := ⟨2024, 1, 7⟩,
    frequency := .weekly, total_income := 100000, status := .active }

/-- Second sample period, 2024-01-20 to 2024-01-26. -/
def periodB : PayPeriod :=
  { periodA with id := 2, start_date := ⟨2024, 1, 20⟩, end_date := ⟨2024, 1, 26⟩ }

/-- Store holding the two disjoint active periods. -/
def twoPeriodDB : DB :=
  { periods := [periodA, periodB], categories := [], transactions := [], nextId := 3 }

/-- A monthly period request for January 2024 (end date resolves to
2024-01-31), overlapping both sample periods. -/
def janRequest : PayPeriodCreate :=
  { start_date := ⟨2024, 1, 1⟩, frequency := .monthly, total_income := 100000,
    budget_categories := [] }

/-- C6 counterexample: an existing active period of the same user intersects
the new inclusive range (the inequalities of the claim hold for `periodA`),
yet `create_pay_period` does not reject with the Conflict error: the overlap
query returns two rows, so the single-row fetch raises the multiple-results
error instead. -/
theorem create_pay_period_multiple_overlap_not_conflict :
    periodA ∈ twoPeriodDB.periods ∧ periodA.user_id = 1 ∧ periodA.status = .active ∧
    dateLe periodA.start_date
      (BudgetService.calculate_end_date janRequest.start_date janRequest.frequency) = true ∧
    dateLe janRequest.start_date periodA.end_date = true ∧
    BudgetService.create_pay_period ⟨1⟩ janRequest twoPeriodDB =
      (.error .multipleResults, twoPeriodDB) ∧
    Err.multipleResults ≠ Err.conflict := by
  decide

/-- C6 (amended): `create_pay_period` rejects with the Conflict error when
exactly one existing period of the same user with status active intersects
the new inclusive range `[start_date, end_date]`; when two or more such
periods intersect it, the single-row overlap fetch fails with the
multiple-results error instead of Conflict; when none intersects it, the
period is persisted with status active. -/
theorem create_pay_period_overlap_behavior (u : User) (d : PayPeriodCreate) (db : DB) :
    ((BudgetService.overlapping_periods u d.start_date
        (BudgetService.calculate_end_date d.start_date d.frequency) db).length = 1 →
      BudgetService.create_pay_period u d db = (.error .conflict, db)) ∧
    (2 ≤ (BudgetService.overlapping_periods u d.start_date
        (BudgetService.calculate_end_date d.start_date d.frequency) db).length →
      BudgetService.create_pay_period u d db = (.error .multipleResults, db)) ∧
    ((BudgetService.overlapping_periods u d.start_date
        (BudgetService.calculate_end_date d.start_date d.frequency) db) = [] →
      (BudgetService.create_pay_period u d db).1 =
        .ok { id := db.nextId, user_id := u.id, start_date := d.start_date,
              end_date := BudgetService.calculate_end_date d.start_date d.frequency,
              frequency := d.frequency, total_income := d.total_income, status := .active } ∧
      ({ id := db.nextId, user_id := u.id, start_date := d.start_date,
         end_date := BudgetService.calculate_end_date d.start_date d.frequency,
         frequency := d.frequency, total_income := d.total_income,
         status := PayPeriodStatus.active } : PayPeriod) ∈
        (BudgetService.create_pay_period u d db).2.periods) := by
  cases hl : BudgetService.overlapping_periods u d.start_date
      (BudgetService.calculate_end_date d.start_date d.frequency) db with
  | nil =>
    refine ⟨fun h1 => by simp at h1, fun h2 => by simp at h2, fun _ => ?_⟩
    constructor
    · simp [BudgetService.create_pay_period, hl, scalarOneOrNone]
    · have hp : (BudgetService.create_pay_period u d db).2.periods =
          { id := db.nextId, user_id := u.id, start_date := d.start_date,
            end_date := BudgetService.calculate_end_date d.start_date d.frequency,
            frequency := d.frequency, total_income := d.total_income,
            status := PayPeriodStatus.active } :: db.periods := by
        simp [BudgetService.create_pay_period, hl, scalarOneOrNone, create_categories_periods]
      rw [hp]
      exact List.mem_cons_self _ _
  | cons a tail =>
    cases tail with
    | nil =>
      refine ⟨fun _ => ?_, fun h2 => by simp at h2, fun h0 => by simp at h0⟩
      simp [BudgetService.create_pay_period, hl, scalarOneOrNone]
    | cons b t =>
      refine ⟨fun h1 => by simp at h1, fun _ => ?_, fun h0 => by simp at h0⟩
      simp [BudgetService.create_pay_period, hl, scalarOneOrNone]

/-- Witness for C6 (amended): a request overlapping the single sample period
is rejected with Conflict, leaving the store unchanged. -/
theorem create_pay_period_overlap_behavior_witness :
    BudgetService.create_pay_period ⟨1⟩ ⟨⟨2024, 1, 8⟩, .weekly, 100, []⟩ sampleDB =
      (.error .conflict, sampleDB) :=
  (create_pay_period_overlap_behavior ⟨1⟩ ⟨⟨2024, 1, 8⟩, .weekly, 100, []⟩ sampleDB).1 (by decide)

/-- A filter whose predicate pins down a key that is unique in the list
returns exactly the one matching element (how a single-row query resolves
an id under primary-key uniqueness). -/
theorem filter_key_singleton {α : Type} (key : α → Nat) (p : α → Bool) (l : List α) (a : α)
    (hnd : (l.map key).Nodup) (ha : a ∈ l) (hpa : p a = true)
    (hkey : ∀ b ∈ l, p b = true → key b = key a) :
    l.filter p = [a] := by
  induction l with
  | nil => cases ha
  | cons x xs ih =>
    rw [List.map_cons, List.nodup_cons] at hnd
    rcases List.mem_cons.mp ha with rfl | haxs
    · rw [List.filter_cons_of_pos hpa]
      have hgone : xs.filter p = [] := by
        rw [List.filter_eq_nil_iff]
        intro b hb hpb
        exact hnd.1 (hkey b (List.mem_cons_of_mem _ hb) hpb ▸ List.mem_map_of_mem key hb)
      rw [hgone]
    · have hpx : p x = false := by
        cases hx : p x with
        | false => rfl
        | true =>
          exact absurd (hkey x (List.mem_cons_self _ _) hx ▸ List.mem_map_of_mem key haxs)
            hnd.1
      rw [List.filter_cons_of_neg (by simp [hpx])]
      exact ih hnd.2 haxs (fun b hb hpb => hkey b (List.mem_cons_of_mem _ hb) hpb)

/-- A single-row fetch that returned a row was run on a one-element list. -/
theorem scalarOneOrNone_eq_ok_some {α : Type} {l : List α} {a : α}
    (h : scalarOneOrNone l = .ok (some a)) : l = [a] := by
  match l, h with
  | [x], h => cases h; rfl

/-- C4: on a period owned by the user, `allocate_budget` fails with
OverAllocation exactly when the supplied batch's allocations sum to strictly
more than the period's total income — a batch summing exactly to the income
is accepted — and the comparison involves only the supplied batch and the
period's income, never the categories already present in the store (the
store is arbitrary here); on rejection the store is returned unchanged, so
no category of the batch is persisted. -/
theorem allocate_budget_batch_check (u : User) (req : BudgetAllocationRequest)
    (db : DB) (pp : PayPeriod)
    (hnd : (db.periods.map PayPeriod.id).Nodup)
    (hp : pp ∈ db.periods) (hid : req.pay_period_id = pp.id) (hu : pp.user_id = u.id) :
    (pp.total_income < (req.allocations.map (fun a => a.allocated_amount)).sum →
      BudgetService.allocate_budget u req db =
        (.error (.overAllocation ((req.allocations.map (fun a => a.allocated_amount)).sum)
          pp.total_income), db)) ∧
    ((req.allocations.map (fun a => a.allocated_amount)).sum ≤ pp.total_income →
      exceptIsOk (BudgetService.allocate_budget u req db).1 = true) := by
  have hfetch : BudgetService.get_pay_period_by_id u req.pay_period_id db = .ok (some pp) := by
    have hone := filter_key_singleton PayPeriod.id
      (fun p => p.id == req.pay_period_id && p.user_id == u.id) db.periods pp hnd hp
      (by simp [hid, hu])
      (by
        intro b hb hpb
        simp only [Bool.and_eq_true, beq_iff_eq] at hpb
        rw [hpb.1, hid])
    unfold BudgetService.get_pay_period_by_id
    rw [hone]
    rfl
  constructor
  · intro hlt
    unfold BudgetService.allocate_budget
    rw [hfetch]
    simp only []
    rw [if_pos hlt]
  · intro hle
    unfold BudgetService.allocate_budget
    rw [hfetch]
    simp only []
    rw [if_neg (by omega)]
    rfl

/-- C3: against a category owned by the requesting user,
`create_transaction` with amount equal to the category's current remaining
amount succeeds and drives the category's remaining amount to exactly 0,
while an amount strictly above the remaining amount is rejected with
InsufficientFunds and the store — categories and transactions alike — is
returned unchanged. -/
theorem create_transaction_insufficient_funds_boundary (u : User) (db : DB)
    (c : BudgetCategory) (d : TransactionCreate) (now : Nat)
    (hnd : (db.categories.map BudgetCategory.id).Nodup)
    (hc : c ∈ db.categories)
    (hown : (db.periods.any fun p => p.id == c.pay_period_id && p.user_id == u.id) = true)
    (hd : d.budget_category_id = c.id) :
    (d.amount = c.remaining_amount →
      exceptIsOk (TransactionService.create_transaction u d now db).1 = true ∧
      ∀ c' ∈ (TransactionService.create_transaction u d now db).2.categories,
        c'.id = c.id → c'.remaining_amount = 0) ∧
    (c.remaining_amount < d.amount →
      TransactionService.create_transaction u d now db =
        (.error (.insufficientFunds c.remaining_amount d.amount), db)) := by
  have hone : TransactionService.owned_categories u d.budget_category_id db = [c] :=
    filter_key_singleton BudgetCategory.id _ db.categories c hnd hc
      (by simp [hd, hown])
      (by
        intro b hb hpb
        simp only [Bool.and_eq_true, beq_iff_eq] at hpb
        rw [hpb.1, hd])
  constructor
  · intro heq
    have hnot : ¬(c.remaining_amount < d.amount) := by omega
    constructor
    · unfold TransactionService.create_transaction
      rw [hone]
      simp only [scalarOneOrNone]
      rw [if_neg hnot]
      rfl
    · intro c' hc' hcid
      unfold TransactionService.create_transaction at hc'
      rw [hone] at hc'
      simp only [scalarOneOrNone] at hc'
      rw [if_neg hnot] at hc'
      simp only [List.mem_map] at hc'
      rcases hc' with ⟨c0, hc0, rfl⟩
      by_cases h0 : c0.id = c.id
      · have hceq : c0 = c := List.inj_on_of_nodup_map hnd hc0 hc (by rw [h0])
        subst hceq
        simp only [beq_self_eq_true, if_true]
        omega
      · simp only [beq_iff_eq, h0, if_false] at hcid
  · intro hlt
    unfold TransactionService.create_transaction
    rw [hone]
    simp only [scalarOneOrNone]
    rw [if_pos hlt]

/-- Witness for C3: spending exactly the 100.00 remaining succeeds; spending
100.01 fails with InsufficientFunds and changes nothing. -/
theorem create_transaction_insufficient_funds_boundary_witness :
    exceptIsOk (TransactionService.create_transaction ⟨1⟩
      { budget_category_id := 2, amount := 10000, description := "rent",
        transaction_date := none, source := .manual } 0 sampleDB).1 = true ∧
    TransactionService.create_transaction ⟨1⟩
      { budget_category_id := 2, amount := 10001, description := "rent",
        transaction_date := none, source := .manual } 0 sampleDB =
      (.error (.insufficientFunds 10000 10001), sampleDB) := by
  constructor
  · exact ((create_transaction_insufficient_funds_boundary ⟨1⟩ sampleDB sampleCategory
      { budget_category_id := 2, amount := 10000, description := "rent",
        transaction_date := none, source := .manual } 0
      (by decide) (by decide) (by decide) rfl).1 (by decide)).1
  · exact (create_transaction_insufficient_funds_boundary ⟨1⟩ sampleDB sampleCategory
      { budget_category_id := 2, amount := 10001, description := "rent",
        transaction_date := none, source := .manual } 0
      (by decide) (by decide) (by decide) rfl).2 (by decide)

/-- Witness for C4: on income 2000.00, a batch summing 2000.01 is rejected
unchanged, a batch summing 2000.00 is accepted — although the store already
holds a 100.00 category, which the check ignores. -/
theorem allocate_budget_batch_check_witness :
    BudgetService.allocate_budget ⟨1⟩ ⟨1, [⟨"Rent", 120000⟩, ⟨"Food", 80001⟩]⟩ sampleDB =
      (.error (.overAllocation 200001 200000), sampleDB) ∧
    exceptIsOk (BudgetService.allocate_budget ⟨1⟩
      ⟨1, [⟨"Rent", 120000⟩, ⟨"Food", 80000⟩]⟩ sampleDB).1 = true := by
  constructor
  · exact (allocate_budget_batch_check ⟨1⟩ ⟨1, [⟨"Rent", 120000⟩, ⟨"Food", 80001⟩]⟩
      sampleDB samplePeriod (by decide) (by decide) rfl rfl).1 (by decide)
  · exact (allocate_budget_batch_check ⟨1⟩ ⟨1, [⟨"Rent", 120000⟩, ⟨"Food", 80000⟩]⟩
      sampleDB samplePeriod (by decide) (by decide) rfl rfl).2 (by decide)

/-- C7: for a transaction of amount A owned by the requesting user,
`update_transaction` patching the amount to B rejects with InsufficientFunds
exactly when B > A and the increase B − A strictly exceeds the owning
category's current remaining amount, leaving the whole store unchanged;
otherwise it succeeds, adjusts the owning category's remaining amount by
exactly A − B (a decrease when B > A, an increase when B < A) and replaces
the transaction's amount by B in the same operation. -/
theorem update_transaction_delta (u : User) (db : DB) (t : Transaction)
    (c : BudgetCategory) (b : Int)
    (hndt : (db.transactions.map Transaction.id).Nodup)
    (hndc : (db.categories.map BudgetCategory.id).Nodup)
    (ht : t ∈ db.transactions)
    (hown : (db.periods.any fun p => p.id == t.pay_period_id && p.user_id == u.id) = true)
    (hc : c ∈ db.categories) (hcid : c.id = t.budget_category_id) :
    (t.amount < b ∧ c.remaining_amount < b - t.amount →
      TransactionService.update_transaction u t.id ⟨none, some b⟩ db =
        (.error (.insufficientFundsIncrease c.remaining_amount), db)) ∧
    (¬(t.amount < b ∧ c.remaining_amount < b - t.amount) →
      (TransactionService.update_transaction u t.id ⟨none, some b⟩ db).1 =
        .ok (some { t with amount := b }) ∧
      (∀ c' ∈ (TransactionService.update_transaction u t.id ⟨none, some b⟩ db).2.categories,
        c'.id = c.id → c'.remaining_amount = c.remaining_amount - (b - t.amount)) ∧
      (∀ t' ∈ (TransactionService.update_transaction u t.id ⟨none, some b⟩ db).2.transactions,
        t'.id = t.id → t' = { t with amount := b })) := by
  have hfetch : TransactionService.get_transaction_by_id u t.id db = .ok (some t) := by
    have hone := filter_key_singleton Transaction.id
      (fun t2 => t2.id == t.id &&
        db.periods.any (fun p => p.id == t2.pay_period_id && p.user_id == u.id))
      db.transactions t hndt ht (by simp [hown])
      (by
        intro b2 hb2 hpb
        simp only [Bool.and_eq_true, beq_iff_eq] at hpb
        exact hpb.1)
    unfold TransactionService.get_transaction_by_id
    rw [hone]
    rfl
  have hcatf : db.categories.filter (fun c2 => c2.id == t.budget_category_id) = [c] :=
    filter_key_singleton BudgetCategory.id _ db.categories c hndc hc
      (by simp [hcid])
      (by
        intro b2 hb2 hpb
        simp only [beq_iff_eq] at hpb
        rw [hpb, ← hcid])
  constructor
  · intro hrej
    unfold TransactionService.update_transaction
    rw [hfetch]
    simp only [scalarOneOrNone, hcatf]
    rw [if_pos (show (0:Int) < b - t.amount ∧ c.remaining_amount < b - t.amount by omega)]
  · intro hok
    unfold TransactionService.update_transaction
    rw [hfetch]
    simp only [scalarOneOrNone, hcatf]
    rw [if_neg (show ¬((0:Int) < b - t.amount ∧ c.remaining_amount < b - t.amount) by omega)]
    refine ⟨rfl, fun c' hc' hcid' => ?_, fun t' ht' htid' => ?_⟩
    · simp only [List.mem_map] at hc'
      rcases hc' with ⟨c0, hc0, rfl⟩
      by_cases h0 : c0.id = c.id
      · have hceq : c0 = c := List.inj_on_of_nodup_map hndc hc0 hc (by rw [h0])
        subst hceq
        simp only [beq_self_eq_true, if_true]
      · simp only [beq_iff_eq, h0, if_false] at hcid'
    · simp only [List.mem_map] at ht'
      rcases ht' with ⟨t0, ht0, rfl⟩
      by_cases h0 : t0.id = t.id
      · simp only [beq_iff_eq, h0, if_true]
      · simp only [beq_iff_eq, h0, if_false] at htid'

/-- C8: for distinct users `a` and `bu`, a period or transaction owned by
`a` behaves for `bu` exactly like an id bound to no object at all (`nid`):
every read returns the same not-found outcome (`none`), every update returns
`none` and leaves the store untouched, and every delete returns `false` and
leaves the store untouched. -/
theorem ownership_isolation (a bu : Nat) (db : DB) (pp : PayPeriod) (t : Transaction)
    (q : PayPeriod) (nid : Nat) (patch : PayPeriodUpdate) (patch2 : TransactionUpdate)
    (hab : a ≠ bu)
    (hndp : (db.periods.map PayPeriod.id).Nodup)
    (hndt : (db.transactions.map Transaction.id).Nodup)
    (hpp : pp ∈ db.periods) (hppu : pp.user_id = a)
    (ht : t ∈ db.transactions)
    (hq : q ∈ db.periods) (hqid : q.id = t.pay_period_id) (hqu : q.user_id = a)
    (hfp : ∀ p ∈ db.periods, p.id ≠ nid)
    (hft : ∀ t2 ∈ db.transactions, t2.id ≠ nid) :
    (BudgetService.get_pay_period_by_id ⟨bu⟩ pp.id db = .ok none ∧
     BudgetService.get_pay_period_by_id ⟨bu⟩ nid db = .ok none) ∧
    (BudgetService.update_pay_period ⟨bu⟩ pp.id patch db = (.ok none, db) ∧
     BudgetService.update_pay_period ⟨bu⟩ nid patch db = (.ok none, db)) ∧
    (TransactionService.get_transaction_by_id ⟨bu⟩ t.id db = .ok none ∧
     TransactionService.get_transaction_by_id ⟨bu⟩ nid db = .ok none) ∧
    (TransactionService.update_transaction ⟨bu⟩ t.id patch2 db = (.ok none, db) ∧
     TransactionService.update_transaction ⟨bu⟩ nid patch2 db = (.ok none, db)) ∧
    (TransactionService.delete_transaction ⟨bu⟩ t.id db = (.ok false, db) ∧
     TransactionService.delete_transaction ⟨bu⟩ nid db = (.ok false, db)) := by
  have hp1 : db.periods.filter (fun p => p.id == pp.id && p.user_id == bu) = [] := by
    rw [List.filter_eq_nil_iff]
    intro p hpmem hpred
    simp only [Bool.and_eq_true, beq_iff_eq] at hpred
    have hpe : p = pp := List.inj_on_of_nodup_map hndp hpmem hpp (by rw [hpred.1])
    subst hpe
    exact hab (by rw [← hppu]; exact hpred.2)
  have hp2 : db.periods.filter (fun p => p.id == nid && p.user_id == bu) = [] := by
    rw [List.filter_eq_nil_iff]
    intro p hpmem hpred
    simp only [Bool.and_eq_true, beq_iff_eq] at hpred
    exact hfp p hpmem hpred.1
  have ht1 : db.transactions.filter (fun t2 => t2.id == t.id &&
      db.periods.any (fun p => p.id == t2.pay_period_id && p.user_id == bu)) = [] := by
    rw [List.filter_eq_nil_iff]
    intro t2 htmem hpred
    simp only [Bool.and_eq_true, beq_iff_eq, List.any_eq_true] at hpred
    have hte : t2 = t := List.inj_on_of_nodup_map hndt htmem ht (by rw [hpred.1])
    subst hte
    rcases hpred.2 with ⟨p, hpmem, hpeq⟩
    have hpq : p = q := List.inj_on_of_nodup_map hndp hpmem hq (by rw [hpeq.1, hqid])
    subst hpq
    exact hab (by rw [← hqu]; exact hpeq.2)
  have ht2 : db.transactions.filter (fun t2 => t2.id == nid &&
      db.periods.any (fun p => p.id == t2.pay_period_id && p.user_id == bu)) = [] := by
    rw [List.filter_eq_nil_iff]
    intro t2 htmem hpred
    simp only [Bool.and_eq_true, beq_iff_eq, List.any_eq_true] at hpred
    exact hft t2 htmem hpred.1
  have hg1 : BudgetService.get_pay_period_by_id ⟨bu⟩ pp.id db = .ok none := by
    unfold BudgetService.get_pay_period_by_id
    rw [hp1]
    rfl
  have hg2 : BudgetService.get_pay_period_by_id ⟨bu⟩ nid db = .ok none := by
    unfold BudgetService.get_pay_period_by_id
    rw [hp2]
    rfl
  have hg3 : TransactionService.get_transaction_by_id ⟨bu⟩ t.id db = .ok none := by
    unfold TransactionService.get_transaction_by_id
    rw [ht1]
    rfl
  have hg4 : TransactionService.get_transaction_by_id ⟨bu⟩ nid db = .ok none := by
    unfold TransactionService.get_transaction_by_id
    rw [ht2]
    rfl
  refine ⟨⟨hg1, hg2⟩, ⟨?_, ?_⟩, ⟨hg3, hg4⟩, ⟨?_, ?_⟩, ⟨?_, ?_⟩⟩
  · unfold BudgetService.update_pay_period
    rw [hg1]
  · unfold BudgetService.update_pay_period
    rw [hg2]
  · unfold TransactionService.update_transaction
    rw [hg3]
  · unfold TransactionService.update_transaction
    rw [hg4]
  · unfold TransactionService.delete_transaction
    rw [hg3]
  · unfold TransactionService.delete_transaction
    rw [hg4]

/-- C9: `get_spending_analytics` reports an average of 0 when the user has
no periods, and otherwise reports exactly total spent divided by the number
of periods (so that average times period count gives back total spent); the
division is only taken under a positive period count. -/
theorem spending_analytics_average (u : User) (db : DB) :
    ((TransactionService.get_spending_analytics u db).total_periods = 0 →
      (TransactionService.get_spending_analytics u db).average_spending_per_period = 0) ∧
    (0 < (TransactionService.get_spending_analytics u db).total_periods →
      (TransactionService.get_spending_analytics u db).average_spending_per_period =
        ((TransactionService.get_spending_analytics u db).total_spent : Rat) /
          ((TransactionService.get_spending_analytics u db).total_periods : Rat) ∧
      (TransactionService.get_spending_analytics u db).average_spending_per_period *
        ((TransactionService.get_spending_analytics u db).total_periods : Rat) =
        ((TransactionService.get_spending_analytics u db).total_spent : Rat)) := by
  constructor
  · intro h0
    simp only [TransactionService.get_spending_analytics] at h0 ⊢
    rw [if_neg (by omega)]
  · intro hpos
    simp only [TransactionService.get_spending_analytics] at hpos ⊢
    rw [if_pos hpos]
    refine ⟨rfl, ?_⟩
    rw [div_mul_cancel₀]
    exact Nat.cast_ne_zero.mpr (by omega)

/-- A persisted 60.00 transaction against the sample category. -/
def sampleTxn : Transaction :=
  { id := 3, pay_period_id := 1, budget_category_id := 2, amount := 6000,
    description := "x", transaction_date := 0, source := .manual }

/-- The sample category after the 60.00 transaction (remaining 40.00). -/
def sampleCategory2 : BudgetCategory := { sampleCategory with remaining_amount := 4000 }

/-- Store holding the sample period, the spent-down category and the
transaction. -/
def sampleDB2 : DB :=
  { periods := [samplePeriod], categories := [sampleCategory2],
    transactions := [sampleTxn], nextId := 4 }

/-- Witness for C7: raising the 60.00 transaction to 120.00 exceeds the
40.00 remaining and is rejected unchanged; lowering it to 20.00 succeeds. -/
theorem update_transaction_delta_witness :
    TransactionService.update_transaction ⟨1⟩ 3 ⟨none, some 12000⟩ sampleDB2 =
      (.error (.insufficientFundsIncrease 4000), sampleDB2) ∧
    (TransactionService.update_transaction ⟨1⟩ 3 ⟨none, some 2000⟩ sampleDB2).1 =
      .ok (some { sampleTxn with amount := 2000 }) := by
  constructor
  · exact (update_transaction_delta ⟨1⟩ sampleDB2 sampleTxn sampleCategory2 12000
      (by decide) (by decide) (by decide) (by decide) (by decide) (by decide)).1 (by decide)
  · exact ((update_transaction_delta ⟨1⟩ sampleDB2 sampleTxn sampleCategory2 2000
      (by decide) (by decide) (by decide) (by decide) (by decide) (by decide)).2 (by decide)).1

/-- Witness for C8: user 2 reading user 1's period and deleting user 1's
transaction gets the plain not-found outcomes. -/
theorem ownership_isolation_witness :
    BudgetService.get_pay_period_by_id ⟨2⟩ 1 sampleDB2 = .ok none ∧
    TransactionService.delete_transaction ⟨2⟩ 3 sampleDB2 = (.ok false, sampleDB2) := by
  have h := ownership_isolation 1 2 sampleDB2 samplePeriod sampleTxn samplePeriod 99
    ⟨none, none⟩ ⟨none, none⟩ (by decide) (by decide) (by decide) (by decide) (by decide)
    (by decide) (by decide) (by decide) (by decide) (by decide) (by decide)
  exact ⟨h.1.1, h.2.2.2.2.1⟩

/-- Witness for C9: with one period the average times the period count is
the total spent; with no periods the average is 0. -/
theorem spending_analytics_average_witness :
    (TransactionService.get_spending_analytics ⟨1⟩ sampleDB2).average_spending_per_period *
      ((TransactionService.get_spending_analytics ⟨1⟩ sampleDB2).total_periods : Rat) =
      ((TransactionService.get_spending_analytics ⟨1⟩ sampleDB2).total_spent : Rat) ∧
    (TransactionService.get_spending_analytics ⟨7⟩ sampleDB2).average_spending_per_period = 0 :=
  ⟨((spending_analytics_average ⟨1⟩ sampleDB2).2 (by decide)).2,
   (spending_analytics_average ⟨7⟩ sampleDB2).1 (by decide)⟩

/-! ## The ledger invariants and the public operations -/

/-- Sum of the amounts of the live transactions charged to category `cid`. -/
def catSum (ts : List Transaction) (cid : Nat) : Int :=
  ((ts.filter (fun t => t.budget_category_id == cid)).map (fun t => t.amount)).sum

/-- The balance invariant: every category's remaining amount is its allocated
amount minus the sum of its live transactions' amounts. -/
def BalanceInv (db : DB) : Prop :=
  ∀ c ∈ db.categories, c.remaining_amount = c.allocated_amount - catSum db.transactions c.id

/-- No category's remaining amount is negative. -/
def NonNegInv (db : DB) : Prop :=
  ∀ c ∈ db.categories, 0 ≤ c.remaining_amount

/-- Every live transaction has a strictly positive amount. -/
def PosAmounts (db : DB) : Prop :=
  ∀ t ∈ db.transactions, 0 < t.amount

/-- Structural well-formedness of the store: primary keys are below the
fresh-id counter and unique, and foreign keys of transactions are below the
counter (they were copied from existing categories). -/
structure StInv (db : DB) : Prop where
  cat_lt : ∀ c ∈ db.categories, c.id < db.nextId
  txn_lt : ∀ t ∈ db.transactions, t.id < db.nextId
  txn_cat_lt : ∀ t ∈ db.transactions, t.budget_category_id < db.nextId
  cat_nodup : (db.categories.map BudgetCategory.id).Nodup
  txn_nodup : (db.transactions.map Transaction.id).Nodup

/-- The public write operations of the two services. -/
inductive Op where
  | createPeriod (uid : Nat) (data : PayPeriodCreate)
  | updatePeriod (uid : Nat) (pid : Nat) (patch : PayPeriodUpdate)
  | allocate (uid : Nat) (req : BudgetAllocationRequest)
  | createTxn (uid : Nat) (data : TransactionCreate) (now : Nat)
  | bulkCreateTxns (uid : Nat) (specs : List TransactionCreate) (now : Nat)
  | updateTxn (uid : Nat) (tid : Nat) (patch : TransactionUpdate)
  | deleteTxn (uid : Nat) (tid : Nat)

/-- The store state an operation leaves behind (on failure the services
leave the store as it was). -/
def applyOp (op : Op) (db : DB) : DB :=
  match op with
  | .createPeriod uid d => (BudgetService.create_pay_period ⟨uid⟩ d db).2
  | .updatePeriod uid pid patch => (BudgetService.update_pay_period ⟨uid⟩ pid patch db).2
  | .allocate uid req => (BudgetService.allocate_budget ⟨uid⟩ req db).2
  | .createTxn uid d now => (TransactionService.create_transaction ⟨uid⟩ d now db).2
  | .bulkCreateTxns uid specs now =>
    (TransactionService.bulk_create_transactions ⟨uid⟩ specs now db).2
  | .updateTxn uid tid patch => (TransactionService.update_transaction ⟨uid⟩ tid patch db).2
  | .deleteTxn uid tid => (TransactionService.delete_transaction ⟨uid⟩ tid db).2

/-- Sequential execution of a list of operations. -/
def applyOps (ops : List Op) (db : DB) : DB :=
  ops.foldl (fun s op => applyOp op s) db

/-- The validation `BudgetCategoryCreate` performs (`schemas/budget.py`):
non-empty name of at most 100 characters, non-negative allocation. -/
def validCategoryCreate (cd : BudgetCategoryCreate) : Bool :=
  decide (0 < cd.name.length) && decide (cd.name.length ≤ 100) &&
    decide (0 ≤ cd.allocated_amount)

/-- The validation `TransactionCreate` performs (`schemas/transaction.py`):
positive amount, non-empty description of at most 255 characters. -/
def validTransactionCreate (d : TransactionCreate) : Bool :=
  decide (0 < d.amount) && decide (0 < d.description.length) &&
    decide (d.description.length ≤ 255)

/-- An operation whose request data passes the pydantic schema validation of
the API layer. -/
def validOp : Op → Bool
  | .createPeriod _ d =>
    decide (0 < d.total_income) && d.budget_categories.all validCategoryCreate
  | .updatePeriod _ _ patch =>
    match patch.total_income with
    | some v => decide (0 < v)
    | none => true
  | .allocate _ req => req.allocations.all validCategoryCreate
  | .createTxn _ d _ => validTransactionCreate d
  | .bulkCreateTxns _ specs _ => specs.all validTransactionCreate
  | .updateTxn _ _ patch =>
    (match patch.amount with
     | some v => decide (0 < v)
     | none => true) &&
    (match patch.description with
     | some s => decide (0 < s.length) && decide (s.length ≤ 255)
     | none => true)
  | .deleteTxn _ _ => true

/-! ## Arithmetic of the live-transaction sums -/

/-- Prepending a transaction adds its amount to the sum of its category. -/
theorem catSum_cons (t : Transaction) (ts : List Transaction) (cid : Nat) :
    catSum (t :: ts) cid =
      (if t.budget_category_id = cid then t.amount else 0) + catSum ts cid := by
  by_cases h : t.budget_category_id = cid
  · simp [catSum, List.filter_cons, h]
  · simp [catSum, List.filter_cons, h]

/-- A category none of the transactions refers to has sum 0. -/
theorem catSum_zero (ts : List Transaction) (cid : Nat)
    (h : ∀ t ∈ ts, t.budget_category_id ≠ cid) : catSum ts cid = 0 := by
  have hf : ts.filter (fun t => t.budget_category_id == cid) = [] :=
    List.filter_eq_nil_iff.mpr (by intro t ht; simpa using h t ht)
  simp [catSum, hf]

/-- Replacing the unique transaction with id `tid` by `t2` moves the sums by
removing the old contribution and adding the new one. -/
theorem catSum_map_one (ts : List Transaction) (tid : Nat) (t t2 : Transaction)
    (hnd : (ts.map Transaction.id).Nodup) (hmem : t ∈ ts) (hid : t.id = tid)
    (cid : Nat) :
    catSum (ts.map (fun x => if x.id == tid then t2 else x)) cid =
      catSum ts cid - (if t.budget_category_id = cid then t.amount else 0)
        + (if t2.budget_category_id = cid then t2.amount else 0) := by
  induction ts with
  | nil => cases hmem
  | cons x xs ih =>
    rw [List.map_cons, List.nodup_cons] at hnd
    rcases List.mem_cons.mp hmem with rfl | hxs
    · have hrest : xs.map (fun y => if y.id == tid then t2 else y) = xs := by
        have hcg : xs.map (fun y => if y.id == tid then t2 else y) = xs.map id :=
          List.map_congr_left (fun y hy => by
            have hne : y.id ≠ tid := by
              intro hcontra
              exact hnd.1 (hid ▸ hcontra ▸ List.mem_map_of_mem Transaction.id hy)
            simp [hne])
        rw [hcg, List.map_id]
      rw [List.map_cons, hrest]
      simp only [hid, beq_self_eq_true, if_true]
      rw [catSum_cons, catSum_cons]
      ring
    · have hxid : (x.id == tid) = false := by
        simp only [beq_eq_false_iff_ne, ne_eq]
        intro hcontra
        exact hnd.1 (hcontra ▸ hid ▸ List.mem_map_of_mem Transaction.id hxs)
      rw [List.map_cons, hxid]
      simp only [Bool.false_eq_true, if_false]
      rw [catSum_cons, catSum_cons, ih hnd.2 hxs]
      ring

/-- Removing the unique transaction with id `tid` subtracts its contribution
from the sums. -/
theorem catSum_filter_rm (ts : List Transaction) (tid : Nat) (t : Transaction)
    (hnd : (ts.map Transaction.id).Nodup) (hmem : t ∈ ts) (hid : t.id = tid)
    (cid : Nat) :
    catSum (ts.filter (fun x => !(x.id == tid))) cid =
      catSum ts cid - (if t.budget_category_id = cid then t.amount else 0) := by
  induction ts with
  | nil => cases hmem
  | cons x xs ih =>
    rw [List.map_cons, List.nodup_cons] at hnd
    rcases List.mem_cons.mp hmem with rfl | hxs
    · have hrest : xs.filter (fun y => !(y.id == tid)) = xs := by
        rw [List.filter_eq_self]
        intro y hy
        have hne : y.id ≠ tid := by
          intro hcontra
          exact hnd.1 (hid ▸ hcontra ▸ List.mem_map_of_mem Transaction.id hy)
        simp [hne]
      rw [List.filter_cons_of_neg (by simp [hid]), hrest, catSum_cons]
      ring
    · have hxid : (x.id ≠ tid) := by
        intro hcontra
        exact hnd.1 (hcontra ▸ hid ▸ List.mem_map_of_mem Transaction.id hxs)
      rw [List.filter_cons_of_pos (by simp [hxid]), catSum_cons, catSum_cons,
        ih hnd.2 hxs]
      ring

/-- Mapping a function that fixes ids leaves the id list unchanged. -/
theorem map_id_of_update (cs : List BudgetCategory) (f : BudgetCategory → BudgetCategory)
    (hf : ∀ c, (f c).id = c.id) :
    (cs.map f).map BudgetCategory.id = cs.map BudgetCategory.id := by
  rw [List.map_map]
  exact List.map_congr_left (fun c _ => hf c)

/-- The element a filter pins down is a member satisfying the predicate. -/
theorem of_filter_eq_singleton {α : Type} {p : α → Bool} {l : List α} {a : α}
    (h : l.filter p = [a]) : a ∈ l ∧ p a = true := by
  have : a ∈ l.filter p := by rw [h]; exact List.mem_singleton_self a
  exact ⟨List.mem_of_mem_filter this, List.of_mem_filter this⟩

/-- All four invariants transfer across a store whose categories,
transactions and fresh-id counter agree. -/
theorem invs_transfer {db db' : DB}
    (hc : db'.categories = db.categories) (ht : db'.transactions = db.transactions)
    (hn : db'.nextId = db.nextId) :
    (StInv db → StInv db') ∧ (BalanceInv db → BalanceInv db') ∧
    (NonNegInv db → NonNegInv db') ∧ (PosAmounts db → PosAmounts db') := by
  refine ⟨fun hst => ⟨?_, ?_, ?_, ?_, ?_⟩, fun hb => ?_, fun hnn => ?_, fun hp => ?_⟩
  · rw [hc, hn]; exact hst.cat_lt
  · rw [ht, hn]; exact hst.txn_lt
  · rw [ht, hn]; exact hst.txn_cat_lt
  · rw [hc]; exact hst.cat_nodup
  · rw [ht]; exact hst.txn_nodup
  · intro c hcm; rw [ht]; exact hb c (hc ▸ hcm)
  · intro c hcm; exact hnn c (hc ▸ hcm)
  · intro t htm; exact hp t (ht ▸ htm)

/-- `update_pay_period` never touches categories, transactions or the id
counter. -/
theorem update_pay_period_fields (u : User) (pid : Nat) (patch : PayPeriodUpdate) (db : DB) :
    (BudgetService.update_pay_period u pid patch db).2.categories = db.categories ∧
    (BudgetService.update_pay_period u pid patch db).2.transactions = db.transactions ∧
    (BudgetService.update_pay_period u pid patch db).2.nextId = db.nextId := by
  unfold BudgetService.update_pay_period
  cases hg : BudgetService.get_pay_period_by_id u pid db with
  | error e => exact ⟨rfl, rfl, rfl⟩
  | ok o =>
    cases o with
    | none => exact ⟨rfl, rfl, rfl⟩
    | some pp => exact ⟨rfl, rfl, rfl⟩

/-- Creating one category preserves the invariants: the fresh category starts
with remaining equal to allocated and no transaction can refer to its fresh
id. -/
theorem _create_budget_category_inv (pid : Nat) (cd : BudgetCategoryCreate) (db : DB) :
    ((BudgetService._create_budget_category pid cd db).2.transactions = db.transactions) ∧
    (StInv db → StInv (BudgetService._create_budget_category pid cd db).2) ∧
    (StInv db → BalanceInv db →
      BalanceInv (BudgetService._create_budget_category pid cd db).2) ∧
    (StInv db → NonNegInv db → 0 ≤ cd.allocated_amount →
      NonNegInv (BudgetService._create_budget_category pid cd db).2) ∧
    (PosAmounts db → PosAmounts (BudgetService._create_budget_category pid cd db).2) := by
  refine ⟨rfl, fun hst => ⟨?_, ?_, ?_, ?_, ?_⟩, fun hst hb => ?_, fun hst hnn h0 => ?_,
    fun hp => hp⟩
  · intro c hc
    simp only [BudgetService._create_budget_category] at hc ⊢
    rcases List.mem_cons.mp hc with rfl | hold
    · exact Nat.lt_succ_self db.nextId
    · exact Nat.lt_succ_of_lt (hst.cat_lt c hold)
  · intro t htm
    simp only [BudgetService._create_budget_category] at htm ⊢
    exact Nat.lt_succ_of_lt (hst.txn_lt t htm)
  · intro t htm
    simp only [BudgetService._create_budget_category] at htm ⊢
    exact Nat.lt_succ_of_lt (hst.txn_cat_lt t htm)
  · simp only [BudgetService._create_budget_category, List.map_cons, List.nodup_cons]
    refine ⟨?_, hst.cat_nodup⟩
    intro hmm
    rcases List.mem_map.mp hmm with ⟨c, hcm, hceq⟩
    have := hst.cat_lt c hcm
    omega
  · exact hst.txn_nodup
  · intro c hc
    simp only [BudgetService._create_budget_category] at hc ⊢
    rcases List.mem_cons.mp hc with rfl | hold
    · have hz : catSum db.transactions db.nextId = 0 :=
        catSum_zero _ _ (fun t htm => by have := hst.txn_cat_lt t htm; omega)
      simp [hz]
    · exact hb c hold
  · intro c hc
    simp only [BudgetService._create_budget_category] at hc ⊢
    rcases List.mem_cons.mp hc with rfl | hold
    · exact h0
    · exact hnn c hold

/-- Sequential category creation preserves the invariants batch-wide. -/
theorem create_categories_inv (pid : Nat) (cds : List BudgetCategoryCreate) (db : DB) :
    ((BudgetService.create_categories pid cds db).2.transactions = db.transactions) ∧
    (StInv db → StInv (BudgetService.create_categories pid cds db).2) ∧
    (StInv db → BalanceInv db →
      BalanceInv (BudgetService.create_categories pid cds db).2) ∧
    (StInv db → NonNegInv db → (∀ cd ∈ cds, 0 ≤ cd.allocated_amount) →
      NonNegInv (BudgetService.create_categories pid cds db).2) ∧
    (PosAmounts db → PosAmounts (BudgetService.create_categories pid cds db).2) := by
  induction cds generalizing db with
  | nil => exact ⟨rfl, fun h => h, fun _ h => h, fun _ h _ => h, fun h => h⟩
  | cons cd rest ih =>
    have hstep := _create_budget_category_inv pid cd db
    have key := ih (BudgetService._create_budget_category pid cd db).2
    exact ⟨key.1.trans hstep.1,
      fun hst => key.2.1 (hstep.2.1 hst),
      fun hst hb => key.2.2.1 (hstep.2.1 hst) (hstep.2.2.1 hst hb),
      fun hst hnn hv => key.2.2.2.1 (hstep.2.1 hst)
        (hstep.2.2.2.1 hst hnn (hv cd (List.mem_cons_self _ _)))
        (fun c hc => hv c (List.mem_cons_of_mem _ hc)),
      fun hp => key.2.2.2.2 (hstep.2.2.2.2 hp)⟩

/-- `create_pay_period` preserves the invariants: failures leave the store
unchanged; success adds a period and then creates the initial categories. -/
theorem create_pay_period_inv (u : User) (d : PayPeriodCreate) (db : DB) :
    (StInv db → StInv (BudgetService.create_pay_period u d db).2) ∧
    (StInv db → BalanceInv db → BalanceInv (BudgetService.create_pay_period u d db).2) ∧
    (StInv db → NonNegInv db → (∀ cd ∈ d.budget_categories, 0 ≤ cd.allocated_amount) →
      NonNegInv (BudgetService.create_pay_period u d db).2) ∧
    (PosAmounts db → PosAmounts (BudgetService.create_pay_period u d db).2) := by
  have hred : (BudgetService.create_pay_period u d db).2 = db ∨
      (BudgetService.create_pay_period u d db).2 =
        (BudgetService.create_categories db.nextId d.budget_categories
          { db with
              periods :=
                ({ id := db.nextId, user_id := u.id, start_date := d.start_date,
                   end_date := BudgetService.calculate_end_date d.start_date d.frequency,
                   frequency := d.frequency, total_income := d.total_income,
                   status := .active } : PayPeriod) :: db.periods,
              nextId := db.nextId + 1 }).2 := by
    cases hl : BudgetService.overlapping_periods u d.start_date
        (BudgetService.calculate_end_date d.start_date d.frequency) db with
    | nil =>
      right
      simp [BudgetService.create_pay_period, hl, scalarOneOrNone]
    | cons a tail =>
      cases tail with
      | nil => left; simp [BudgetService.create_pay_period, hl, scalarOneOrNone]
      | cons b t => left; simp [BudgetService.create_pay_period, hl, scalarOneOrNone]
  rcases hred with h | h
  · rw [h]
    exact ⟨fun hs => hs, fun _ hb => hb, fun _ hn _ => hn, fun hp => hp⟩
  · rw [h]
    have hcc := create_categories_inv db.nextId d.budget_categories
      { db with
          periods :=
            ({ id := db.nextId, user_id := u.id, start_date := d.start_date,
               end_date := BudgetService.calculate_end_date d.start_date d.frequency,
               frequency := d.frequency, total_income := d.total_income,
               status := .active } : PayPeriod) :: db.periods,
          nextId := db.nextId + 1 }
    have hdb1 : StInv db → StInv { db with
        periods :=
          ({ id := db.nextId, user_id := u.id, start_date := d.start_date,
             end_date := BudgetService.calculate_end_date d.start_date d.frequency,
             frequency := d.frequency, total_income := d.total_income,
             status := PayPeriodStatus.active } : PayPeriod) :: db.periods,
        nextId := db.nextId + 1 } :=
      fun hst => ⟨fun c hc => Nat.lt_succ_of_lt (hst.cat_lt c hc),
        fun t htm => Nat.lt_succ_of_lt (hst.txn_lt t htm),
        fun t htm => Nat.lt_succ_of_lt (hst.txn_cat_lt t htm),
        hst.cat_nodup, hst.txn_nodup⟩
    exact ⟨fun hs => hcc.2.1 (hdb1 hs),
      fun hs hb => hcc.2.2.1 (hdb1 hs) (fun c hc => hb c hc),
      fun hs hn hv => hcc.2.2.2.1 (hdb1 hs) (fun c hc => hn c hc) hv,
      fun hp => hcc.2.2.2.2 (fun t htm => hp t htm)⟩

/-- `allocate_budget` preserves the invariants: failures leave the store
unchanged; success creates the batch's categories. -/
theorem allocate_budget_inv (u : User) (req : BudgetAllocationRequest) (db : DB) :
    (StInv db → StInv (BudgetService.allocate_budget u req db).2) ∧
    (StInv db → BalanceInv db → BalanceInv (BudgetService.allocate_budget u req db).2) ∧
    (StInv db → NonNegInv db → (∀ cd ∈ req.allocations, 0 ≤ cd.allocated_amount) →
      NonNegInv (BudgetService.allocate_budget u req db).2) ∧
    (PosAmounts db → PosAmounts (BudgetService.allocate_budget u req db).2) := by
  have hred : (BudgetService.allocate_budget u req db).2 = db ∨
      ∃ pp : PayPeriod, (BudgetService.allocate_budget u req db).2 =
        (BudgetService.create_categories pp.id req.allocations db).2 := by
    unfold BudgetService.allocate_budget
    cases hg : BudgetService.get_pay_period_by_id u req.pay_period_id db with
    | error e => left; rfl
    | ok o =>
      cases o with
      | none => left; rfl
      | some pp =>
        by_cases hlt : pp.total_income <
            (req.allocations.map (fun a => a.allocated_amount)).sum
        · left
          simp only [if_pos hlt]
        · right
          exact ⟨pp, by simp only [if_neg hlt]⟩
  rcases hred with h | h
  · rw [h]
    exact ⟨fun hs => hs, fun _ hb => hb, fun _ hn _ => hn, fun hp => hp⟩
  · rcases h with ⟨pp, h⟩
    rw [h]
    have hcc := create_categories_inv pp.id req.allocations db
    exact ⟨fun hs => hcc.2.1 hs,
      fun hs hb => hcc.2.2.1 hs hb,
      fun hs hn hv => hcc.2.2.2.1 hs hn hv,
      fun hp => hcc.2.2.2.2 hp⟩

/-- `create_transaction` preserves the invariants: failure paths leave the
store unchanged; on success the inserted transaction's amount is exactly the
decrement applied to its category's remaining amount, and the
insufficient-funds guard keeps the new remaining amount non-negative. -/
theorem create_transaction_inv (u : User) (d : TransactionCreate) (now : Nat) (db : DB) :
    (StInv db → StInv (TransactionService.create_transaction u d now db).2) ∧
    (StInv db → BalanceInv db →
      BalanceInv (TransactionService.create_transaction u d now db).2) ∧
    (StInv db → NonNegInv db →
      NonNegInv (TransactionService.create_transaction u d now db).2) ∧
    (PosAmounts db → 0 < d.amount →
      PosAmounts (TransactionService.create_transaction u d now db).2) := by
  cases hl : TransactionService.owned_categories u d.budget_category_id db with
  | nil =>
    have hr : (TransactionService.create_transaction u d now db).2 = db := by
      unfold TransactionService.create_transaction
      rw [hl]
      rfl
    rw [hr]
    exact ⟨fun h => h, fun _ h => h, fun _ h => h, fun h _ => h⟩
  | cons cat tail =>
    cases tail with
    | cons b t =>
      have hr : (TransactionService.create_transaction u d now db).2 = db := by
        unfold TransactionService.create_transaction
        rw [hl]
        rfl
      rw [hr]
      exact ⟨fun h => h, fun _ h => h, fun _ h => h, fun h _ => h⟩
    | nil =>
      have hmem : cat ∈ db.categories := (of_filter_eq_singleton hl).1
      by_cases hins : cat.remaining_amount < d.amount
      · have hr : (TransactionService.create_transaction u d now db).2 = db := by
          unfold TransactionService.create_transaction
          rw [hl]
          simp only [scalarOneOrNone]
          rw [if_pos hins]
        rw [hr]
        exact ⟨fun h => h, fun _ h => h, fun _ h => h, fun h _ => h⟩
      · have hr : (TransactionService.create_transaction u d now db).2 =
            { db with
                categories := db.categories.map (fun c =>
                  if c.id == cat.id then
                    { c with remaining_amount := c.remaining_amount - d.amount }
                  else c),
                transactions :=
                  ({ id := db.nextId, pay_period_id := cat.pay_period_id,
                     budget_category_id := cat.id, amount := d.amount,
                     description := d.description,
                     transaction_date := d.transaction_date.getD now,
                     source := d.source } : Transaction) :: db.transactions,
                nextId := db.nextId + 1 } := by
          unfold TransactionService.create_transaction
          rw [hl]
          simp only [scalarOneOrNone]
          rw [if_neg hins]
        rw [hr]
        have hfid : ∀ c0 : BudgetCategory,
            ((fun c =>
              if c.id == cat.id then
                { c with remaining_amount := c.remaining_amount - d.amount }
              else c) c0).id = c0.id := by
          intro c0
          by_cases h : (c0.id == cat.id) = true
          · simp [h]
          · simp [h]
        refine ⟨fun hst => ⟨?_, ?_, ?_, ?_, ?_⟩, fun hst hb => ?_, fun hst hnn => ?_,
          fun hp hpos => ?_⟩
        · intro c hc
          rcases List.mem_map.mp hc with ⟨c0, hc0, rfl⟩
          rw [hfid c0]
          exact Nat.lt_succ_of_lt (hst.cat_lt c0 hc0)
        · intro t2 ht2
          rcases List.mem_cons.mp ht2 with rfl | hold
          · exact Nat.lt_succ_self db.nextId
          · exact Nat.lt_succ_of_lt (hst.txn_lt t2 hold)
        · intro t2 ht2
          rcases List.mem_cons.mp ht2 with rfl | hold
          · exact Nat.lt_succ_of_lt (hst.cat_lt cat hmem)
          · exact Nat.lt_succ_of_lt (hst.txn_cat_lt t2 hold)
        · rw [map_id_of_update _ _ hfid]
          exact hst.cat_nodup
        · rw [List.map_cons, List.nodup_cons]
          refine ⟨?_, hst.txn_nodup⟩
          intro hmm
          rcases List.mem_map.mp hmm with ⟨t2, ht2, hteq⟩
          have hteq2 : t2.id = db.nextId := hteq
          have := hst.txn_lt t2 ht2
          omega
        · intro c hc
          rcases List.mem_map.mp hc with ⟨c0, hc0, rfl⟩
          rw [catSum_cons]
          by_cases h : c0.id = cat.id
          · have hcl : (c0.id == cat.id) = true := by simp [h]
            simp only [hcl, if_true]
            have hif : (cat.id = c0.id) = True := by simp [h]
            simp only [hif, if_true]
            have hbal := hb c0 hc0
            omega
          · have hcl : (c0.id == cat.id) = false := by simp [h]
            simp only [hcl, Bool.false_eq_true, if_false]
            have hif : ¬(cat.id = c0.id) := fun hcon => h hcon.symm
            rw [if_neg hif]
            have hbal := hb c0 hc0
            omega
        · intro c hc
          rcases List.mem_map.mp hc with ⟨c0, hc0, rfl⟩
          by_cases h : c0.id = cat.id
          · have hceq : c0 = cat := List.inj_on_of_nodup_map hst.cat_nodup hc0 hmem (by rw [h])
            subst hceq
            have hcl : (c0.id == c0.id) = true := by simp
            simp only [hcl, if_true]
            omega
          · have hcl : (c0.id == cat.id) = false := by simp [h]
            simp only [hcl, Bool.false_eq_true, if_false]
            exact hnn c0 hc0
        · intro t2 ht2
          rcases List.mem_cons.mp ht2 with rfl | hold
          · exact hpos
          · exact hp t2 hold

/-- Replacing the ids by themselves under an update keeps the id list. -/
theorem map_tid_of_update (ts : List Transaction) (f : Transaction → Transaction)
    (hf : ∀ t, (f t).id = t.id) :
    (ts.map f).map Transaction.id = ts.map Transaction.id := by
  rw [List.map_map]
  exact List.map_congr_left (fun t _ => hf t)

/-- Overwriting the unique transaction `tid` by a transaction of the same id
and category preserves the invariants; the balance invariant additionally
needs the amount to be unchanged (the amount-changing path of
`update_transaction` adjusts the category balance alongside and is handled
separately). -/
theorem replace_txn_inv (db : DB) (tid : Nat) (txn txn2 : Transaction)
    (hmem : txn ∈ db.transactions) (htid : txn.id = tid)
    (hid2 : txn2.id = txn.id) (hbc : txn2.budget_category_id = txn.budget_category_id) :
    (StInv db → StInv { db with transactions := db.transactions.map (fun t2 =>
        if t2.id == tid then txn2 else t2) }) ∧
    (StInv db → BalanceInv db → txn2.amount = txn.amount →
      BalanceInv { db with transactions := db.transactions.map (fun t2 =>
        if t2.id == tid then txn2 else t2) }) ∧
    (NonNegInv db → NonNegInv { db with transactions := db.transactions.map (fun t2 =>
        if t2.id == tid then txn2 else t2) }) ∧
    (PosAmounts db → 0 < txn2.amount →
      PosAmounts { db with transactions := db.transactions.map (fun t2 =>
        if t2.id == tid then txn2 else t2) }) := by
  have hf : ∀ t2 : Transaction,
      ((fun t3 => if t3.id == tid then txn2 else t3) t2).id = t2.id := by
    intro t2
    by_cases h : t2.id = tid
    · have hcl : (t2.id == tid) = true := by simp [h]
      simp only [hcl, if_true]
      rw [hid2, htid, h]
    · have hcl : (t2.id == tid) = false := by simp [h]
      simp only [hcl, Bool.false_eq_true, if_false]
  refine ⟨fun hst => ⟨fun c hc => hst.cat_lt c hc, ?_, ?_, hst.cat_nodup, ?_⟩,
    fun hst hb ham => ?_, fun hnn => fun c hc => hnn c hc, fun hp hpos => ?_⟩
  · intro t2 ht2
    rcases List.mem_map.mp ht2 with ⟨x, hx, rfl⟩
    by_cases h : x.id = tid
    · have hcl : (x.id == tid) = true := by simp [h]
      simp only [hcl, if_true]
      rw [hid2]
      exact hst.txn_lt txn hmem
    · have hcl : (x.id == tid) = false := by simp [h]
      simp only [hcl, Bool.false_eq_true, if_false]
      exact hst.txn_lt x hx
  · intro t2 ht2
    rcases List.mem_map.mp ht2 with ⟨x, hx, rfl⟩
    by_cases h : x.id = tid
    · have hcl : (x.id == tid) = true := by simp [h]
      simp only [hcl, if_true]
      rw [hbc]
      exact hst.txn_cat_lt txn hmem
    · have hcl : (x.id == tid) = false := by simp [h]
      simp only [hcl, Bool.false_eq_true, if_false]
      exact hst.txn_cat_lt x hx
  · rw [map_tid_of_update _ _ hf]
    exact hst.txn_nodup
  · intro c hc
    have heq := catSum_map_one db.transactions tid txn txn2 hst.txn_nodup hmem htid c.id
    have hbal := hb c hc
    rw [heq, hbc, ham]
    omega
  · intro t2 ht2
    rcases List.mem_map.mp ht2 with ⟨x, hx, rfl⟩
    by_cases h : x.id = tid
    · have hcl : (x.id == tid) = true := by simp [h]
      simp only [hcl, if_true]
      exact hpos
    · have hcl : (x.id == tid) = false := by simp [h]
      simp only [hcl, Bool.false_eq_true, if_false]
      exact hp x hx

/-- `update_transaction` preserves the invariants: failure paths leave the
store unchanged, a description-only patch re-balances nothing, and an amount
patch moves the category's remaining amount by exactly the amount
difference under the insufficient-funds guard. -/
theorem update_transaction_inv (u : User) (tid : Nat) (patch : TransactionUpdate) (db : DB) :
    (StInv db → StInv (TransactionService.update_transaction u tid patch db).2) ∧
    (StInv db → BalanceInv db →
      BalanceInv (TransactionService.update_transaction u tid patch db).2) ∧
    (StInv db → NonNegInv db →
      NonNegInv (TransactionService.update_transaction u tid patch db).2) ∧
    (StInv db → PosAmounts db → (∀ v, patch.amount = some v → 0 < v) →
      PosAmounts (TransactionService.update_transaction u tid patch db).2) := by
  cases hg : TransactionService.get_transaction_by_id u tid db with
  | error e =>
    have hr : (TransactionService.update_transaction u tid patch db).2 = db := by
      unfold TransactionService.update_transaction
      rw [hg]
    rw [hr]
    exact ⟨fun h => h, fun _ h => h, fun _ h => h, fun _ h _ => h⟩
  | ok o =>
    cases o with
    | none =>
      have hr : (TransactionService.update_transaction u tid patch db).2 = db := by
        unfold TransactionService.update_transaction
        rw [hg]
      rw [hr]
      exact ⟨fun h => h, fun _ h => h, fun _ h => h, fun _ h _ => h⟩
    | some txn =>
      have hfil : db.transactions.filter (fun t2 => t2.id == tid &&
          db.periods.any (fun p => p.id == t2.pay_period_id && p.user_id == u.id)) = [txn] := by
        apply scalarOneOrNone_eq_ok_some
        exact hg
      have hmemt : txn ∈ db.transactions := (of_filter_eq_singleton hfil).1
      have htid : txn.id = tid := by
        have hpredt := (of_filter_eq_singleton hfil).2
        simp only [Bool.and_eq_true, beq_iff_eq] at hpredt
        exact hpredt.1
      cases hpa : patch.amount with
      | none =>
        have hr : (TransactionService.update_transaction u tid patch db).2 =
            { db with transactions := db.transactions.map (fun t2 =>
                if t2.id == tid then
                  (match patch.description with
                   | some ds => { txn with description := ds }
                   | none => txn)
                else t2) } := by
          unfold TransactionService.update_transaction
          rw [hg, hpa]
        rw [hr]
        have hrep := replace_txn_inv db tid txn
          (match patch.description with
           | some ds => { txn with description := ds }
           | none => txn) hmemt htid
          (by cases patch.description <;> rfl)
          (by cases patch.description <;> rfl)
        refine ⟨fun hs => hrep.1 hs,
          fun hs hb => hrep.2.1 hs hb (by cases patch.description <;> rfl),
          fun hs hn => hrep.2.2.1 hn,
          fun hs hp hv => hrep.2.2.2 hp ?_⟩
        have hsm : (match patch.description with
            | some ds => { txn with description := ds }
            | none => txn).amount = txn.amount := by
          cases patch.description <;> rfl
        rw [hsm]
        exact hp txn hmemt
      | some b =>
        cases hcf : db.categories.filter (fun c => c.id == txn.budget_category_id) with
        | nil =>
          have hr : (TransactionService.update_transaction u tid patch db).2 =
              { db with transactions := db.transactions.map (fun t2 =>
                  if t2.id == tid then
                    (match patch.description with
                     | some ds => { txn with description := ds }
                     | none => txn)
                  else t2) } := by
            unfold TransactionService.update_transaction
            rw [hg]
            simp only [hpa, hcf, scalarOneOrNone]
          rw [hr]
          have hrep := replace_txn_inv db tid txn
            (match patch.description with
             | some ds => { txn with description := ds }
             | none => txn) hmemt htid
            (by cases patch.description <;> rfl)
            (by cases patch.description <;> rfl)
          refine ⟨fun hs => hrep.1 hs,
            fun hs hb => hrep.2.1 hs hb (by cases patch.description <;> rfl),
            fun hs hn => hrep.2.2.1 hn,
            fun hs hp hv => hrep.2.2.2 hp ?_⟩
          have hsm : (match patch.description with
              | some ds => { txn with description := ds }
              | none => txn).amount = txn.amount := by
            cases patch.description <;> rfl
          rw [hsm]
          exact hp txn hmemt
        | cons cat ctail =>
          cases ctail with
          | cons c2 ct =>
            have hr : (TransactionService.update_transaction u tid patch db).2 = db := by
              unfold TransactionService.update_transaction
              rw [hg]
              simp only [hpa, hcf, scalarOneOrNone]
            rw [hr]
            exact ⟨fun h => h, fun _ h => h, fun _ h => h, fun _ h _ => h⟩
          | nil =>
            have hcat : cat ∈ db.categories := (of_filter_eq_singleton hcf).1
            have hcid : cat.id = txn.budget_category_id := by
              have := (of_filter_eq_singleton hcf).2
              simpa using this
            by_cases hguard : 0 < b - txn.amount ∧ cat.remaining_amount < b - txn.amount
            · have hr : (TransactionService.update_transaction u tid patch db).2 = db := by
                unfold TransactionService.update_transaction
                rw [hg]
                simp only [hpa, hcf, scalarOneOrNone]
                rw [if_pos hguard]
              rw [hr]
              exact ⟨fun h => h, fun _ h => h, fun _ h => h, fun _ h _ => h⟩
            · have hr : (TransactionService.update_transaction u tid patch db).2 =
                  { db with
                      categories := db.categories.map (fun c =>
                        if c.id == cat.id then
                          { c with remaining_amount :=
                              c.remaining_amount - (b - txn.amount) }
                        else c),
                      transactions := db.transactions.map (fun t2 =>
                        if t2.id == tid then
                          (match patch.description with
                           | some ds => { txn with amount := b, description := ds }
                           | none => { txn with amount := b })
                        else t2) } := by
                unfold TransactionService.update_transaction
                rw [hg]
                simp only [hpa, hcf, scalarOneOrNone]
                rw [if_neg hguard]
              rw [hr]
              have htxn2id : (match patch.description with
                  | some ds => { txn with amount := b, description := ds }
                  | none => { txn with amount := b }).id = txn.id := by
                cases patch.description <;> rfl
              have htxn2bc : (match patch.description with
                  | some ds => { txn with amount := b, description := ds }
                  | none => { txn with amount := b }).budget_category_id =
                  txn.budget_category_id := by
                cases patch.description <;> rfl
              have htxn2am : (match patch.description with
                  | some ds => { txn with amount := b, description := ds }
                  | none => { txn with amount := b }).amount = b := by
                cases patch.description <;> rfl
              have hfidc : ∀ c0 : BudgetCategory,
                  ((fun c =>
                    if c.id == cat.id then
                      { c with remaining_amount := c.remaining_amount - (b - txn.amount) }
                    else c) c0).id = c0.id := by
                intro c0
                by_cases h : (c0.id == cat.id) = true
                · simp [h]
                · simp [h]
              have hftid : ∀ t2 : Transaction,
                  ((fun t3 => if t3.id == tid then
                    (match patch.description with
                     | some ds => { txn with amount := b, description := ds }
                     | none => { txn with amount := b })
                  else t3) t2).id = t2.id := by
                intro t2
                by_cases h : t2.id = tid
                · have hcl : (t2.id == tid) = true := by simp [h]
                  simp only [hcl, if_true]
                  rw [htxn2id, htid, h]
                · have hcl : (t2.id == tid) = false := by simp [h]
                  simp only [hcl, Bool.false_eq_true, if_false]
              refine ⟨fun hst => ⟨?_, ?_, ?_, ?_, ?_⟩, fun hst hb => ?_,
                fun hst hnn => ?_, fun hst hp hv => ?_⟩
              · intro c hc
                rcases List.mem_map.mp hc with ⟨c0, hc0, rfl⟩
                rw [hfidc c0]
                exact hst.cat_lt c0 hc0
              · intro t2 ht2
                rcases List.mem_map.mp ht2 with ⟨x, hx, rfl⟩
                by_cases h : x.id = tid
                · have hcl : (x.id == tid) = true := by simp [h]
                  simp only [hcl, if_true]
                  rw [htxn2id]
                  exact hst.txn_lt txn hmemt
                · have hcl : (x.id == tid) = false := by simp [h]
                  simp only [hcl, Bool.false_eq_true, if_false]
                  exact hst.txn_lt x hx
              · intro t2 ht2
                rcases List.mem_map.mp ht2 with ⟨x, hx, rfl⟩
                by_cases h : x.id = tid
                · have hcl : (x.id == tid) = true := by simp [h]
                  simp only [hcl, if_true]
                  rw [htxn2bc]
                  exact hst.txn_cat_lt txn hmemt
                · have hcl : (x.id == tid) = false := by simp [h]
                  simp only [hcl, Bool.false_eq_true, if_false]
                  exact hst.txn_cat_lt x hx
              · rw [map_id_of_update _ _ hfidc]
                exact hst.cat_nodup
              · rw [map_tid_of_update _ _ hftid]
                exact hst.txn_nodup
              · intro c hc
                rcases List.mem_map.mp hc with ⟨c0, hc0, rfl⟩
                have heq := catSum_map_one db.transactions tid txn
                  (match patch.description with
                   | some ds => { txn with amount := b, description := ds }
                   | none => { txn with amount := b })
                  hst.txn_nodup hmemt htid
                  ((fun c =>
                    if c.id == cat.id then
                      { c with remaining_amount := c.remaining_amount - (b - txn.amount) }
                    else c) c0).id
                rw [heq, htxn2bc, htxn2am, hfidc c0]
                have hbal := hb c0 hc0
                by_cases h : c0.id = cat.id
                · have hbceq : txn.budget_category_id = c0.id := by rw [← hcid, h]
                  rw [if_pos hbceq, if_pos hbceq]
                  have hcl : (c0.id == cat.id) = true := by simp [h]
                  simp only [hcl, if_true]
                  omega
                · have hbcne : ¬(txn.budget_category_id = c0.id) := by
                    rw [← hcid]
                    exact fun hcon => h hcon.symm
                  rw [if_neg hbcne, if_neg hbcne]
                  have hcl : (c0.id == cat.id) = false := by simp [h]
                  simp only [hcl, Bool.false_eq_true, if_false]
                  omega
              · intro c hc
                rcases List.mem_map.mp hc with ⟨c0, hc0, rfl⟩
                by_cases h : c0.id = cat.id
                · have hceq : c0 = cat :=
                    List.inj_on_of_nodup_map hst.cat_nodup hc0 hcat (by rw [h])
                  subst hceq
                  have hcl : (c0.id == c0.id) = true := by simp
                  simp only [hcl, if_true]
                  have hn0 := hnn c0 hc0
                  omega
                · have hcl : (c0.id == cat.id) = false := by simp [h]
                  simp only [hcl, Bool.false_eq_true, if_false]
                  exact hnn c0 hc0
              · intro t2 ht2
                rcases List.mem_map.mp ht2 with ⟨x, hx, rfl⟩
                by_cases h : x.id = tid
                · have hcl : (x.id == tid) = true := by simp [h]
                  simp only [hcl, if_true]
                  rw [htxn2am]
                  exact hv b rfl
                · have hcl : (x.id == tid) = false := by simp [h]
                  simp only [hcl, Bool.false_eq_true, if_false]
                  exact hp x hx

/-- `delete_transaction` preserves the invariants: failure paths leave the
store unchanged; on success the removed transaction's amount is exactly what
is restored to its category's remaining amount. -/
theorem delete_transaction_inv (u : User) (tid : Nat) (db : DB) :
    (StInv db → StInv (TransactionService.delete_transaction u tid db).2) ∧
    (StInv db → BalanceInv db →
      BalanceInv (TransactionService.delete_transaction u tid db).2) ∧
    (StInv db → NonNegInv db → PosAmounts db →
      NonNegInv (TransactionService.delete_transaction u tid db).2) ∧
    (PosAmounts db → PosAmounts (TransactionService.delete_transaction u tid db).2) := by
  cases hg : TransactionService.get_transaction_by_id u tid db with
  | error e =>
    have hr : (TransactionService.delete_transaction u tid db).2 = db := by
      unfold TransactionService.delete_transaction
      rw [hg]
    rw [hr]
    exact ⟨fun h => h, fun _ h => h, fun _ h _ => h, fun h => h⟩
  | ok o =>
    cases o with
    | none =>
      have hr : (TransactionService.delete_transaction u tid db).2 = db := by
        unfold TransactionService.delete_transaction
        rw [hg]
      rw [hr]
      exact ⟨fun h => h, fun _ h => h, fun _ h _ => h, fun h => h⟩
    | some txn =>
      have hfil : db.transactions.filter (fun t2 => t2.id == tid &&
          db.periods.any (fun p => p.id == t2.pay_period_id && p.user_id == u.id)) = [txn] := by
        apply scalarOneOrNone_eq_ok_some
        exact hg
      have hmemt : txn ∈ db.transactions := (of_filter_eq_singleton hfil).1
      have htid : txn.id = tid := by
        have hpredt := (of_filter_eq_singleton hfil).2
        simp only [Bool.and_eq_true, beq_iff_eq] at hpredt
        exact hpredt.1
      have hsubnd : ∀ st : StInv db,
          ((db.transactions.filter (fun t2 => !(t2.id == tid))).map Transaction.id).Nodup :=
        fun st => List.Nodup.sublist
          (List.Sublist.map Transaction.id (List.filter_sublist db.transactions)) st.txn_nodup
      cases hcf : db.categories.filter (fun c => c.id == txn.budget_category_id) with
      | nil =>
        have hnocat : ∀ c ∈ db.categories, ¬(txn.budget_category_id = c.id) := by
          intro c hc hcon
          have := List.filter_eq_nil_iff.mp hcf c hc
          simp [hcon] at this
        have hr : (TransactionService.delete_transaction u tid db).2 =
            { db with transactions := db.transactions.filter (fun t2 => !(t2.id == tid)) } := by
          unfold TransactionService.delete_transaction
          rw [hg]
          simp only [hcf, scalarOneOrNone]
        rw [hr]
        refine ⟨fun hst => ⟨fun c hc => hst.cat_lt c hc, ?_, ?_, hst.cat_nodup, hsubnd hst⟩,
          fun hst hb => ?_, fun hst hnn _ => fun c hc => hnn c hc, fun hp => ?_⟩
        · intro t2 ht2
          exact hst.txn_lt t2 (List.mem_of_mem_filter ht2)
        · intro t2 ht2
          exact hst.txn_cat_lt t2 (List.mem_of_mem_filter ht2)
        · intro c hc
          have heq := catSum_filter_rm db.transactions tid txn hst.txn_nodup hmemt htid c.id
          rw [heq, if_neg (hnocat c hc)]
          have hbal := hb c hc
          omega
        · intro t2 ht2
          exact hp t2 (List.mem_of_mem_filter ht2)
      | cons cat ctail =>
        cases ctail with
        | cons c2 ct =>
          have hr : (TransactionService.delete_transaction u tid db).2 = db := by
            unfold TransactionService.delete_transaction
            rw [hg]
            simp only [hcf, scalarOneOrNone]
          rw [hr]
          exact ⟨fun h => h, fun _ h => h, fun _ h _ => h, fun h => h⟩
        | nil =>
          have hcat : cat ∈ db.categories := (of_filter_eq_singleton hcf).1
          have hcid : cat.id = txn.budget_category_id := by
            have := (of_filter_eq_singleton hcf).2
            simpa using this
          have hr : (TransactionService.delete_transaction u tid db).2 =
              { db with
                  categories := db.categories.map (fun c =>
                    if c.id == cat.id then
                      { c with remaining_amount := c.remaining_amount + txn.amount }
                    else c),
                  transactions := db.transactions.filter (fun t2 => !(t2.id == tid)) } := by
            unfold TransactionService.delete_transaction
            rw [hg]
            simp only [hcf, scalarOneOrNone]
          rw [hr]
          have hfidc : ∀ c0 : BudgetCategory,
              ((fun c =>
                if c.id == cat.id then
                  { c with remaining_amount := c.remaining_amount + txn.amount }
                else c) c0).id = c0.id := by
            intro c0
            by_cases h : (c0.id == cat.id) = true
            · simp [h]
            · simp [h]
          refine ⟨fun hst => ⟨?_, ?_, ?_, ?_, hsubnd hst⟩, fun hst hb => ?_,
            fun hst hnn hp => ?_, fun hp => ?_⟩
          · intro c hc
            rcases List.mem_map.mp hc with ⟨c0, hc0, rfl⟩
            rw [hfidc c0]
            exact hst.cat_lt c0 hc0
          · intro t2 ht2
            exact hst.txn_lt t2 (List.mem_of_mem_filter ht2)
          · intro t2 ht2
            exact hst.txn_cat_lt t2 (List.mem_of_mem_filter ht2)
          · rw [map_id_of_update _ _ hfidc]
            exact hst.cat_nodup
          · intro c hc
            rcases List.mem_map.mp hc with ⟨c0, hc0, rfl⟩
            have heq := catSum_filter_rm db.transactions tid txn hst.txn_nodup hmemt htid
              ((fun c =>
                if c.id == cat.id then
                  { c with remaining_amount := c.remaining_amount + txn.amount }
                else c) c0).id
            rw [heq, hfidc c0]
            have hbal := hb c0 hc0
            by_cases h : c0.id = cat.id
            · have hbceq : txn.budget_category_id = c0.id := by rw [← hcid, h]
              rw [if_pos hbceq]
              have hcl : (c0.id == cat.id) = true := by simp [h]
              simp only [hcl, if_true]
              omega
            · have hbcne : ¬(txn.budget_category_id = c0.id) := by
                rw [← hcid]
                exact fun hcon => h hcon.symm
              rw [if_neg hbcne]
              have hcl : (c0.id == cat.id) = false := by simp [h]
              simp only [hcl, Bool.false_eq_true, if_false]
              omega
          · intro c hc
            rcases List.mem_map.mp hc with ⟨c0, hc0, rfl⟩
            by_cases h : c0.id = cat.id
            · have hcl : (c0.id == cat.id) = true := by simp [h]
              simp only [hcl, if_true]
              have hn0 := hnn c0 hc0
              have hpa := hp txn hmemt
              omega
            · have hcl : (c0.id == cat.id) = false := by simp [h]
              simp only [hcl, Bool.false_eq_true, if_false]
              exact hnn c0 hc0
          · intro t2 ht2
            exact hp t2 (List.mem_of_mem_filter ht2)

/-- The bulk loop keeps committed and current states equal at its commit
points and preserves the invariants of the durable store: every successful
item is committed, and the rollback on failure restores the committed
state. -/
theorem bulk_create_go_inv (u : User) (specs : List TransactionCreate) (now : Nat)
    (acc : List Transaction) (sess : Session) (hcc : sess.current = sess.committed) :
    ((TransactionService.bulk_create_go u specs now acc sess).2.current =
      (TransactionService.bulk_create_go u specs now acc sess).2.committed) ∧
    (StInv sess.committed →
      StInv (TransactionService.bulk_create_go u specs now acc sess).2.committed) ∧
    (StInv sess.committed → BalanceInv sess.committed →
      BalanceInv (TransactionService.bulk_create_go u specs now acc sess).2.committed) ∧
    (StInv sess.committed → NonNegInv sess.committed →
      NonNegInv (TransactionService.bulk_create_go u specs now acc sess).2.committed) ∧
    (PosAmounts sess.committed → (specs.all validTransactionCreate) = true →
      PosAmounts (TransactionService.bulk_create_go u specs now acc sess).2.committed) := by
  induction specs generalizing acc sess with
  | nil => exact ⟨hcc, fun h => h, fun _ h => h, fun _ h => h, fun h _ => h⟩
  | cons d rest ih =>
    cases hr : TransactionService.create_transaction u
        { d with source := TransactionSource.api } now sess.current with
    | mk r db1 =>
      cases r with
      | ok t =>
        have hred : TransactionService.bulk_create_go u (d :: rest) now acc sess =
            TransactionService.bulk_create_go u rest now (t :: acc) ⟨db1, db1⟩ := by
          simp only [TransactionService.bulk_create_go]
          simp only [hr]
        rw [hred]
        have hinv := create_transaction_inv u { d with source := TransactionSource.api }
          now sess.current
        rw [hr, hcc] at hinv
        have key := ih (t :: acc) ⟨db1, db1⟩ rfl
        refine ⟨key.1, fun hs => key.2.1 (hinv.1 hs),
          fun hs hb => key.2.2.1 (hinv.1 hs) (hinv.2.1 hs hb),
          fun hs hn => key.2.2.2.1 (hinv.1 hs) (hinv.2.2.1 hs hn),
          fun hp hv => ?_⟩
        simp only [List.all_cons, Bool.and_eq_true] at hv
        have hda : 0 < d.amount := by
          have := hv.1
          simp only [validTransactionCreate, Bool.and_eq_true, decide_eq_true_eq] at this
          exact this.1.1
        exact key.2.2.2.2 (hinv.2.2.2 hp hda) hv.2
      | error e =>
        have hred : TransactionService.bulk_create_go u (d :: rest) now acc sess =
            (.error (.bulkFailed e), ⟨sess.committed, sess.committed⟩) := by
          simp only [TransactionService.bulk_create_go]
          simp only [hr]
        rw [hred]
        exact ⟨rfl, fun h => h, fun _ h => h, fun _ h => h, fun h _ => h⟩

/-- `bulk_create_transactions` preserves the invariants of the durable
store. -/
theorem bulk_create_transactions_inv (u : User) (specs : List TransactionCreate)
    (now : Nat) (db : DB) :
    (StInv db → StInv (TransactionService.bulk_create_transactions u specs now db).2) ∧
    (StInv db → BalanceInv db →
      BalanceInv (TransactionService.bulk_create_transactions u specs now db).2) ∧
    (StInv db → NonNegInv db →
      NonNegInv (TransactionService.bulk_create_transactions u specs now db).2) ∧
    (PosAmounts db → (specs.all validTransactionCreate) = true →
      PosAmounts (TransactionService.bulk_create_transactions u specs now db).2) := by
  have h := bulk_create_go_inv u specs now [] ⟨db, db⟩ rfl
  exact ⟨h.2.1, h.2.2.1, h.2.2.2.1, h.2.2.2.2⟩

/-- Every public operation preserves the structural and balance invariants,
and — under schema-validated inputs — non-negativity of balances and
positivity of transaction amounts. -/
theorem applyOp_inv (op : Op) (db : DB) :
    (StInv db → StInv (applyOp op db)) ∧
    (StInv db → BalanceInv db → BalanceInv (applyOp op db)) ∧
    (StInv db → NonNegInv db → PosAmounts db → validOp op = true →
      NonNegInv (applyOp op db) ∧ PosAmounts (applyOp op db)) := by
  cases op with
  | createPeriod uid d =>
    have h := create_pay_period_inv ⟨uid⟩ d db
    refine ⟨h.1, h.2.1, fun hs hn hp hv => ⟨?_, h.2.2.2 hp⟩⟩
    have hval : ∀ cd ∈ d.budget_categories, 0 ≤ cd.allocated_amount := by
      simp only [validOp, Bool.and_eq_true, List.all_eq_true] at hv
      intro cd hcd
      have hc := hv.2 cd hcd
      simp only [validCategoryCreate, Bool.and_eq_true, decide_eq_true_eq] at hc
      exact hc.2
    exact h.2.2.1 hs hn hval
  | updatePeriod uid pid patch =>
    have hf := update_pay_period_fields ⟨uid⟩ pid patch db
    have h := invs_transfer hf.1 hf.2.1 hf.2.2
    exact ⟨h.1, fun _ hb => h.2.1 hb, fun _ hn hp _ => ⟨h.2.2.1 hn, h.2.2.2 hp⟩⟩
  | allocate uid req =>
    have h := allocate_budget_inv ⟨uid⟩ req db
    refine ⟨h.1, h.2.1, fun hs hn hp hv => ⟨?_, h.2.2.2 hp⟩⟩
    have hval : ∀ cd ∈ req.allocations, 0 ≤ cd.allocated_amount := by
      simp only [validOp, List.all_eq_true] at hv
      intro cd hcd
      have hc := hv cd hcd
      simp only [validCategoryCreate, Bool.and_eq_true, decide_eq_true_eq] at hc
      exact hc.2
    exact h.2.2.1 hs hn hval
  | createTxn uid d now =>
    have h := create_transaction_inv ⟨uid⟩ d now db
    refine ⟨h.1, h.2.1, fun hs hn hp hv => ⟨h.2.2.1 hs hn, ?_⟩⟩
    have hda : 0 < d.amount := by
      simp only [validOp, validTransactionCreate, Bool.and_eq_true, decide_eq_true_eq] at hv
      exact hv.1.1
    exact h.2.2.2 hp hda
  | bulkCreateTxns uid specs now =>
    have h := bulk_create_transactions_inv ⟨uid⟩ specs now db
    exact ⟨h.1, h.2.1, fun hs hn hp hv => ⟨h.2.2.1 hs hn, h.2.2.2 hp hv⟩⟩
  | updateTxn uid tid patch =>
    have h := update_transaction_inv ⟨uid⟩ tid patch db
    refine ⟨h.1, h.2.1, fun hs hn hp hv => ⟨h.2.2.1 hs hn, ?_⟩⟩
    have hva : ∀ v, patch.amount = some v → 0 < v := by
      simp only [validOp, Bool.and_eq_true] at hv
      intro v hveq
      have hv1 := hv.1
      rw [hveq] at hv1
      simpa using hv1
    exact h.2.2.2 hs hp hva
  | deleteTxn uid tid =>
    have h := delete_transaction_inv ⟨uid⟩ tid db
    exact ⟨h.1, h.2.1, fun hs hn hp _ => ⟨h.2.2.1 hs hn hp, h.2.2.2 hp⟩⟩

/-- Chaining the per-operation preservation over a whole operation
sequence. -/
theorem applyOps_inv (ops : List Op) (db : DB) :
    (StInv db → StInv (applyOps ops db)) ∧
    (StInv db → BalanceInv db → BalanceInv (applyOps ops db)) ∧
    (StInv db → NonNegInv db → PosAmounts db → (∀ op ∈ ops, validOp op = true) →
      NonNegInv (applyOps ops db) ∧ PosAmounts (applyOps ops db)) := by
  induction ops generalizing db with
  | nil => exact ⟨fun h => h, fun _ h => h, fun _ hn hp _ => ⟨hn, hp⟩⟩
  | cons op rest ih =>
    have h1 := applyOp_inv op db
    have h2 := ih (applyOp op db)
    exact ⟨fun hs => h2.1 (h1.1 hs),
      fun hs hb => h2.2.1 (h1.1 hs) (h1.2.1 hs hb),
      fun hs hn hp hv => by
        have hhd := h1.2.2 hs hn hp (hv op (List.mem_cons_self _ _))
        exact h2.2.2 (h1.1 hs) hhd.1 hhd.2 (fun o ho => hv o (List.mem_cons_of_mem _ ho))⟩

/-- The empty store satisfies all the invariants. -/
theorem emptyDB_invs : StInv emptyDB ∧ BalanceInv emptyDB ∧ NonNegInv emptyDB ∧
    PosAmounts emptyDB := by
  refine ⟨⟨?_, ?_, ?_, ?_, ?_⟩, ?_, ?_, ?_⟩ <;>
    first
      | exact List.nodup_nil
      | intro x hx; cases hx

/-- C1: after any sequence of the public ledger operations run from the
empty store — period creation with initial categories, allocation,
transaction creation, bulk creation, transaction update and transaction
deletion — every category's remaining amount equals its allocated amount
minus the sum of the amounts of its live transactions. -/
theorem balance_invariant_preserved (ops : List Op) :
    BalanceInv (applyOps ops emptyDB) :=
  (applyOps_inv ops emptyDB).2.1 emptyDB_invs.1 emptyDB_invs.2.1

/-- C10: after any sequence of schema-valid public operations run from the
empty store (allocations non-negative, transaction amounts positive), no
category's remaining amount is ever negative. -/
theorem remaining_amount_nonneg (ops : List Op) (hv : ∀ op ∈ ops, validOp op = true) :
    NonNegInv (applyOps ops emptyDB) :=
  ((applyOps_inv ops emptyDB).2.2 emptyDB_invs.1 emptyDB_invs.2.2.1
    emptyDB_invs.2.2.2 hv).1

/-- A concrete operation sequence: create a period, allocate two categories,
then create, shrink and delete a transaction. -/
def sampleOps : List Op :=
  [ .createPeriod 1 ⟨⟨2024, 1, 1⟩, .bi_weekly, 200000, []⟩,
    .allocate 1 ⟨1, [⟨"Groceries", 50000⟩, ⟨"Rent", 120000⟩]⟩,
    .createTxn 1 ⟨2, 7550, "food", none, .manual⟩ 0,
    .updateTxn 1 4 ⟨none, some 2000⟩,
    .deleteTxn 1 4 ]

/-- Witness for C10 at the concrete operation sequence. -/
theorem remaining_amount_nonneg_witness : NonNegInv (applyOps sampleOps emptyDB) :=
  remaining_amount_nonneg sampleOps (by decide)

